import Mathlib

/-!
# Verification of the uxuistudio agent-orchestration and deployment core

A shallow embedding, in Lean, of the core components of the repository:

* `AIService.parseJSONResponse` and `AIService.generateCompletion`
  (src/backend-node/src/ai/AIService.ts),
* the specialist agents `PlanningAgent.execute`, `DesignAgent.execute`,
  `ContentAgent.execute` (src/backend-node/src/ai/agents/),
* `Orchestrator.orchestrate` (src/backend-node/src/ai/agents/Orchestrator.ts),
* `SSHClient.executeCommand` and the WP-CLI wrappers, and
  `WordPressService.deploySite`
  (src/backend-node/src/integrations/wordpress/wordpress.service.ts),
* the axios response interceptor of `WordPressAPIClient`
  (src/backend-node/src/integrations/wordpress/api-client.ts) and the error
  classes of src/backend-node/src/integrations/wordpress/errors.ts.

Strings are modelled as `List Char`; JavaScript numbers that appear as JSON
payload values are modelled as integers (the model of `JSON.parse` accepts
integer numerals only, so fractional literals fall outside the modelled
parse domain); agent confidences are rationals `ℚ` so that the orchestrator's
mean is exact.  Asynchronous calls (the generation provider, the SSH
transport, the remote command results) are modelled as explicit oracle
values passed to the embedded functions, and a thrown JavaScript exception
is an `Except.error`.
-/

namespace UxUi

/-! ## JSON values

`JSON.parse` / `JSON.stringify` are platform primitives of the Node runtime,
not repository code; they are modelled here executably.  The model covers
null, booleans, integer numerals, strings without escape sequences (a
backslash or a control character below 0x20 makes the modelled parse fail,
as a raw control character does for `JSON.parse`), arrays and objects. -/

/-- A JSON value as produced by the modelled `JSON.parse`.  Object members
are kept in textual order; duplicate keys are kept (re-serialization then
reproduces them, which is all the claims need). -/
inductive JVal where
  | jnull
  | jbool (b : Bool)
  | jnum (n : Int)
  | jstr (s : List Char)
  | jarr (items : List JVal)
  | jobj (fields : List (List Char × JVal))
deriving Repr

/-- The character with code 123, an opening curly brace. -/
def lbrace : Char := Char.ofNat 123

/-- The character with code 125, a closing curly brace. -/
def rbrace : Char := Char.ofNat 125

/-- Whitespace as skipped between JSON tokens (and trimmed by the model of
`String.prototype.trim`). -/
def isWsCh (c : Char) : Bool := c = ' ' || c = '\n' || c = '\t' || c = '\r'

/-- Decimal digit test (on the character code: 48 to 57). -/
def isDigitCh (c : Char) : Bool := decide (48 ≤ c.toNat) && decide (c.toNat ≤ 57)

/-- Drop leading whitespace. -/
def skipSpace : List Char → List Char
  | [] => []
  | c :: t => if isWsCh c then skipSpace t else c :: t

/-- The call `stripTok tok cs` returns the remainder of `cs` after the literal token
`tok`, or `none` when `tok` is not a prefix of `cs`. -/
def stripTok : List Char → List Char → Option (List Char)
  | [], cs => some cs
  | _ :: _, [] => none
  | tc :: ts, c :: cs => if c = tc then stripTok ts cs else none

/-- The token `null`. -/
def nullTok : List Char := ['n', 'u', 'l', 'l']

/-- The token `true`. -/
def trueTok : List Char := ['t', 'r', 'u', 'e']

/-- The token `false`. -/
def falseTok : List Char := ['f', 'a', 'l', 's', 'e']

/-- Split a leading run of decimal digits off a character list. -/
def grabDigits : List Char → List Char × List Char
  | [] => ([], [])
  | c :: t =>
    if isDigitCh c then
      let r := grabDigits t
      (c :: r.1, r.2)
    else ([], c :: t)

/-- Value of a digit run, most significant digit first. -/
def digitsVal (ds : List Char) : Nat :=
  ds.foldl (fun a c => a * 10 + (c.toNat - 48)) 0

/-- Parse an integer numeral: an optional minus sign then one or more
digits. -/
def pNum : List Char → Option (JVal × List Char)
  | [] => none
  | c :: t =>
    if c = '-' then
      let r := grabDigits t
      if r.1.isEmpty then none else some (.jnum (-(digitsVal r.1 : Int)), r.2)
    else
      let r := grabDigits (c :: t)
      if r.1.isEmpty then none else some (.jnum (digitsVal r.1), r.2)

/-- Parse the body of a string after its opening quote: plain characters up
to the closing quote.  A backslash or a character below 0x20 is rejected
(the modelled parser supports no escape sequences). -/
def pStrBody : List Char → Option (List Char × List Char)
  | [] => none
  | c :: t =>
    if c = '"' then some ([], t)
    else if c = '\\' || decide (c.toNat < 32) then none
    else
      match pStrBody t with
      | some r => some (c :: r.1, r.2)
      | none => none

mutual

/-- Parse one JSON value (fuel-bounded recursion; the top level supplies
more fuel than any input can consume). -/
def pVal : Nat → List Char → Option (JVal × List Char)
  | 0, _ => none
  | fuel + 1, cs =>
    let cs1 := skipSpace cs
    match stripTok nullTok cs1 with
    | some r => some (.jnull, r)
    | none =>
      match stripTok trueTok cs1 with
      | some r => some (.jbool true, r)
      | none =>
        match stripTok falseTok cs1 with
        | some r => some (.jbool false, r)
        | none =>
          match cs1 with
          | [] => none
          | c :: t =>
            if c = '"' then
              match pStrBody t with
              | some r => some (.jstr r.1, r.2)
              | none => none
            else if c = '[' then
              match skipSpace t with
              | [] => none
              | c2 :: t2 =>
                if c2 = ']' then some (.jarr [], t2)
                else
                  match pItems fuel (c2 :: t2) with
                  | some r => some (.jarr r.1, r.2)
                  | none => none
            else if c = lbrace then
              match skipSpace t with
              | [] => none
              | c2 :: t2 =>
                if c2 = rbrace then some (.jobj [], t2)
                else
                  match pFields fuel (c2 :: t2) with
                  | some r => some (.jobj r.1, r.2)
                  | none => none
            else if c = '-' || isDigitCh c then pNum cs1
            else none

/-- One or more comma-separated array items, consuming the closing
bracket. -/
def pItems : Nat → List Char → Option (List JVal × List Char)
  | 0, _ => none
  | fuel + 1, cs =>
    match pVal fuel cs with
    | none => none
    | some vr =>
      match skipSpace vr.2 with
      | [] => none
      | c :: t =>
        if c = ',' then
          match pItems fuel t with
          | some r => some (vr.1 :: r.1, r.2)
          | none => none
        else if c = ']' then some ([vr.1], t)
        else none

/-- One or more comma-separated `"key": value` members, consuming the
closing brace. -/
def pFields : Nat → List Char → Option (List (List Char × JVal) × List Char)
  | 0, _ => none
  | fuel + 1, cs =>
    match skipSpace cs with
    | [] => none
    | c :: t =>
      if c = '"' then
        match pStrBody t with
        | none => none
        | some kr =>
          match skipSpace kr.2 with
          | [] => none
          | c2 :: t2 =>
            if c2 = ':' then
              match pVal fuel t2 with
              | none => none
              | some vr =>
                match skipSpace vr.2 with
                | [] => none
                | c3 :: t3 =>
                  if c3 = ',' then
                    match pFields fuel t3 with
                    | some r => some ((kr.1, vr.1) :: r.1, r.2)
                    | none => none
                  else if c3 = rbrace then some ([(kr.1, vr.1)], t3)
                  else none
            else none
      else none

end

/-- The model of `JSON.parse`: parse one value, then require at most
trailing whitespace. -/
def jsonParse (s : List Char) : Option JVal :=
  match pVal (s.length + 1) s with
  | some vr => if (skipSpace vr.2).isEmpty then some vr.1 else none
  | none => none

/-! ## JSON serialization (the model of `JSON.stringify`) -/

/-- The digit character for `d < 10`. -/
def digitCh (d : Nat) : Char := Char.ofNat (48 + d)

/-- Decimal digit characters of a natural number, most significant first. -/
def natChars (n : Nat) : List Char :=
  if n < 10 then [digitCh n] else natChars (n / 10) ++ [digitCh (n % 10)]
termination_by n
decreasing_by
  have : n / 10 < n := Nat.div_lt_self (by omega) (by omega)
  omega

/-- Decimal characters of an integer: optional minus sign, then digits. -/
def intChars (i : Int) : List Char :=
  if i < 0 then '-' :: natChars i.natAbs else natChars i.natAbs

mutual

/-- Model of `JSON.stringify` on the parser's value range: compact output,
no inserted whitespace; strings in the parser's range need no escaping and
are emitted verbatim between quotes. -/
def render : JVal → List Char
  | .jnull => nullTok
  | .jbool true => trueTok
  | .jbool false => falseTok
  | .jnum n => intChars n
  | .jstr s => '"' :: (s ++ ['"'])
  | .jarr vs => '[' :: (renderItems vs ++ [']'])
  | .jobj fs => lbrace :: (renderFields fs ++ [rbrace])

/-- Comma-separated renderings of array items. -/
def renderItems : List JVal → List Char
  | [] => []
  | [v] => render v
  | v :: vs => render v ++ ',' :: renderItems vs

/-- Comma-separated renderings of object members. -/
def renderFields : List (List Char × JVal) → List Char
  | [] => []
  | [kv] => '"' :: (kv.1 ++ '"' :: ':' :: render kv.2)
  | kv :: fs => '"' :: (kv.1 ++ '"' :: ':' :: (render kv.2 ++ ',' :: renderFields fs))

end

/-- A string character the modelled parser can accept: not a quote, not a
backslash, not a control character. -/
def charOk (c : Char) : Bool :=
  (c != '"') && (c != '\\') && decide (32 ≤ c.toNat)

/-- All characters of a parsed string are plain. -/
def sOk (s : List Char) : Bool := s.all charOk

mutual

/-- Values in the modelled parser's range: every string consists of plain
characters. -/
def WF : JVal → Bool
  | .jnull => true
  | .jbool _ => true
  | .jnum _ => true
  | .jstr s => sOk s
  | .jarr vs => WFitems vs
  | .jobj fs => WFfields fs

/-- Well-formedness of every array item. -/
def WFitems : List JVal → Bool
  | [] => true
  | v :: vs => WF v && WFitems vs

/-- Well-formedness of every object member (key and value). -/
def WFfields : List (List Char × JVal) → Bool
  | [] => true
  | kv :: fs => sOk kv.1 && WF kv.2 && WFfields fs

end

mutual

/-- Fuel sufficient for `pVal` to parse a rendering of the value. -/
def fuelVal : JVal → Nat
  | .jnull => 1
  | .jbool _ => 1
  | .jnum _ => 1
  | .jstr _ => 1
  | .jarr vs => 1 + fuelItems vs
  | .jobj fs => 1 + fuelFields fs

/-- Fuel sufficient for `pItems` on renderings of the items. -/
def fuelItems : List JVal → Nat
  | [] => 0
  | v :: vs => 1 + fuelVal v + fuelItems vs

/-- Fuel sufficient for `pFields` on renderings of the members. -/
def fuelFields : List (List Char × JVal) → Nat
  | [] => 0
  | kv :: fs => 1 + fuelVal kv.2 + fuelFields fs

end

/-! ## Fenced-block extraction and trimming

`AIService.parseJSONResponse` first matches the fenced-block regular
expressions and then parses the trimmed candidate text
(src/backend-node/src/ai/AIService.ts lines 80-92). -/

/-- Split the input at the first occurrence of the literal pattern `pat`:
`some (before, after)` with the pattern's characters removed, scanning left
to right, or `none` when it never occurs. -/
def findSub (pat : List Char) : List Char → Option (List Char × List Char)
  | [] =>
    match stripTok pat [] with
    | some r => some ([], r)
    | none => none
  | c :: t =>
    match stripTok pat (c :: t) with
    | some r => some ([], r)
    | none =>
      match findSub pat t with
      | some br => some (c :: br.1, br.2)
      | none => none

/-- The opening of a ```` ```json ```` fence (the first regex alternative). -/
def fenceJsonOpen : List Char := "```json\n".toList

/-- The opening of a plain ```` ``` ```` fence (the second regex
alternative). -/
def fencePlainOpen : List Char := "```\n".toList

/-- The closing of either fence. -/
def fenceClose : List Char := "\n```".toList

/-- First match of one fenced-block regex: the earliest opening token with a
closing token somewhere after it; the capture group is the (lazily
shortest) text between them. -/
def matchFence (openTok s : List Char) : Option (List Char) :=
  match findSub openTok s with
  | none => none
  | some br =>
    match findSub fenceClose br.2 with
    | some cr => some cr.1
    | none => none

/-- The fenced-payload extraction of `parseJSONResponse`: the
```` ```json ```` regex is tried first, then the plain ```` ``` ```` one
(`response.match(a) || response.match(b)`). -/
def extractFenced (s : List Char) : Option (List Char) :=
  match matchFence fenceJsonOpen s with
  | some c => some c
  | none => matchFence fencePlainOpen s

/-- Model of `String.prototype.trim`: drop whitespace from both ends. -/
def trimChars (s : List Char) : List Char :=
  (skipSpace (skipSpace s).reverse).reverse

/-- A generation fault, classified per the error-handling taxonomy:
transport/provider faults are distinct from malformed-response faults. -/
inductive AIFault where
  | network (msg : String)
  | malformed (msg : String)
deriving Repr, DecidableEq

/-- The message of the JavaScript `Error` carrying a fault. -/
def faultMsg : AIFault → String
  | .network m => m
  | .malformed m => m

/-- Model of `AIService.parseJSONResponse`: extract the fenced payload if one of the
two regexes matches, else use the whole response; `JSON.parse` the trimmed
candidate; on parse failure throw the malformed-response error
`Invalid JSON response from AI`. -/
def parseJSONResponse (response : List Char) : Except AIFault JVal :=
  let jsonString :=
    match extractFenced response with
    | some c => c
    | none => response
  match jsonParse (trimChars jsonString) with
  | some v => .ok v
  | none => .error (.malformed "Invalid JSON response from AI")

/-! ## Generation Client and specialist agents

`AIService.generateCompletion` either resolves with the provider's text or
throws `AI generation failed: …`; each agent (`PlanningAgent.execute`,
`DesignAgent.execute`, `ContentAgent.execute`) wraps its whole body in
`try … catch` and converts any thrown error into a failed `AgentOutput`.
The provider's behaviour on one call is an explicit oracle value. -/

/-- What the text-generation provider does on one call: return raw text, or
fail (network/provider fault). -/
inductive GenOutcome where
  | text (s : List Char)
  | fail (msg : String)

/-- Model of `AIService.generateCompletion`: pass the provider's text through, or
wrap a provider fault as the thrown `AI generation failed: …` error
(classified as a transport-level fault, distinct from parse faults). -/
def generateCompletion : GenOutcome → Except AIFault (List Char)
  | .text s => .ok s
  | .fail m => .error (.network ("AI generation failed: " ++ m))

/-- The `AgentInput` record (src/backend-node/src/ai/types.ts). -/
structure AgentInput where
  businessName : String
  businessType : String
  description : String
  industry : Option String
  targetAudience : Option String

/-- The `AgentOutput` record (src/backend-node/src/ai/types.ts): `data` and
`assumptions` are absent (`undefined`/`null`) or a JSON value; `errors` is
absent or a list of messages; confidence is a rational so the
orchestrator's mean is exact. -/
structure AgentOutput where
  success : Bool
  confidence : ℚ
  data : Option JVal
  assumptions : Option JVal
  errors : Option (List String)

/-- The failed `AgentOutput` every agent's `catch` block builds:
`{ success: false, confidence: 0, data: null, errors: [error.message] }`. -/
def failedAgentOutput (msg : String) : AgentOutput :=
  ⟨false, 0, none, none, some [msg]⟩

/-- Last binding of a key among an object's members (later duplicate keys
win, as after `JSON.parse` in JavaScript). -/
def lookupLast (k : List Char) : List (List Char × JVal) → Option JVal
  | [] => none
  | kv :: fs =>
    match lookupLast k fs with
    | some v => some v
    | none => if kv.1 = k then some kv.2 else none

/-- JavaScript property read `v[k]`: throws on `null`, yields the member on
an object, and `undefined` (here `none`) on anything else. -/
def jsAccess : JVal → List Char → Except String (Option JVal)
  | .jnull, _ => .error "Cannot read properties of null"
  | .jobj fs, k => .ok (lookupLast k fs)
  | _, _ => .ok none

/-- JavaScript property read through a possibly-`undefined` base. -/
def jsAccessOpt : Option JVal → List Char → Except String (Option JVal)
  | none, _ => .error "Cannot read properties of undefined"
  | some v, k => jsAccess v k

/-- Member of a non-null value without the throwing case (used after an
earlier read has already ruled `null` out). -/
def fieldOf (v : JVal) (k : List Char) : Option JVal :=
  match v with
  | .jobj fs => lookupLast k fs
  | _ => none

/-- A numeric confidence field as a rational; a missing or non-numeric
field is modelled as 0 (the claims never depend on that corner). -/
def confValue : Option JVal → ℚ
  | some (.jnum n) => (n : ℚ)
  | _ => 0

/-- JavaScript truthiness of a JSON value (for `data.posts || []`). -/
def truthy : JVal → Bool
  | .jnull => false
  | .jbool b => b
  | .jnum n => !(n == 0)
  | .jstr s => !s.isEmpty
  | .jarr _ => true
  | .jobj _ => true

/-- JavaScript `x || dflt` on a possibly-missing JSON value. -/
def jsOr (x : Option JVal) (dflt : JVal) : JVal :=
  match x with
  | some v => if truthy v then v else dflt
  | none => dflt

/-- An object literal whose members with `undefined` values are omitted
(the model keeps only present fields; no claim observes the difference). -/
def buildObj (kvs : List (List Char × Option JVal)) : JVal :=
  .jobj (kvs.foldr
    (fun kv acc =>
      match kv.2 with
      | some x => (kv.1, x) :: acc
      | none => acc) [])

/-- The key `confidence`. -/
def keyConfidence : List Char := "confidence".toList

/-- The payload object `PlanningAgent.execute` returns on success:
`{ pages, features, navigation, siteMap }` projected from the parsed
response. -/
def planningData (v : JVal) : JVal :=
  buildObj
    [("pages".toList, fieldOf v "pages".toList),
     ("features".toList, fieldOf v "features".toList),
     ("navigation".toList, fieldOf v "navigation".toList),
     ("siteMap".toList, fieldOf v "siteMap".toList)]

/-- The body of `PlanningAgent.execute` before its `catch`: generate,
parse, read `data.confidence` (a throwing read when the parsed value is
`null`), then assemble the successful output. -/
def planningBody (_input : AgentInput) (g : GenOutcome) : Except String AgentOutput :=
  match generateCompletion g with
  | .error f => .error (faultMsg f)
  | .ok r =>
    match parseJSONResponse r with
    | .error f => .error (faultMsg f)
    | .ok v =>
      match jsAccess v keyConfidence with
      | .error m => .error m
      | .ok c =>
        .ok ⟨true, confValue c, some (planningData v), fieldOf v "assumptions".toList, none⟩

/-- Model of `PlanningAgent.execute`: the body with its `catch` boundary — a thrown
error becomes a failed `AgentOutput`, never an escaping exception. -/
def planningExecute (input : AgentInput) (g : GenOutcome) : AgentOutput :=
  match planningBody input g with
  | .ok o => o
  | .error m => failedAgentOutput m

/-- The payload object `DesignAgent.execute` returns on success. -/
def designData (v : JVal) : JVal :=
  buildObj
    [("theme".toList, fieldOf v "theme".toList),
     ("colorPalette".toList, fieldOf v "colorPalette".toList),
     ("typography".toList, fieldOf v "typography".toList),
     ("style".toList, fieldOf v "style".toList)]

/-- The body of `DesignAgent.execute` before its `catch`. -/
def designBody (_input : AgentInput) (g : GenOutcome) : Except String AgentOutput :=
  match generateCompletion g with
  | .error f => .error (faultMsg f)
  | .ok r =>
    match parseJSONResponse r with
    | .error f => .error (faultMsg f)
    | .ok v =>
      match jsAccess v keyConfidence with
      | .error m => .error m
      | .ok c =>
        .ok ⟨true, confValue c, some (designData v), none, none⟩

/-- Model of `DesignAgent.execute`. -/
def designExecute (input : AgentInput) (g : GenOutcome) : AgentOutput :=
  match designBody input g with
  | .ok o => o
  | .error m => failedAgentOutput m

/-- Is the value JSON `null`? -/
def isNull : JVal → Bool
  | .jnull => true
  | _ => false

/-- Building the content prompt evaluates
`pages.map(p => ({ title: p.title, slug: p.slug }))`: a throwing step when
`pages` is not an array or contains `null` entries. -/
def promptPages : Option JVal → Except String Unit
  | none => .error "Cannot read properties of undefined (reading map)"
  | some .jnull => .error "Cannot read properties of null (reading map)"
  | some (.jarr items) =>
    if items.any isNull then .error "Cannot read properties of null" else .ok ()
  | some _ => .error "pages.map is not a function"

/-- The payload object `ContentAgent.execute` returns on success:
`{ pages: data.pages, posts: data.posts || [] }`. -/
def contentData (v : JVal) : JVal :=
  buildObj
    [("pages".toList, fieldOf v "pages".toList),
     ("posts".toList, some (jsOr (fieldOf v "posts".toList) (.jarr [])))]

/-- The body of `ContentAgent.execute` before its `catch`: the prompt is
built from the upstream page list first, then generate and parse. -/
def contentBody (_input : AgentInput) (pages : Option JVal) (g : GenOutcome) :
    Except String AgentOutput :=
  match promptPages pages with
  | .error m => .error m
  | .ok _ =>
    match generateCompletion g with
    | .error f => .error (faultMsg f)
    | .ok r =>
      match parseJSONResponse r with
      | .error f => .error (faultMsg f)
      | .ok v =>
        match jsAccess v keyConfidence with
        | .error m => .error m
        | .ok c =>
          .ok ⟨true, confValue c, some (contentData v), none, none⟩

/-- Model of `ContentAgent.execute`. -/
def contentExecute (input : AgentInput) (pages : Option JVal) (g : GenOutcome) :
    AgentOutput :=
  match contentBody input pages g with
  | .ok o => o
  | .error m => failedAgentOutput m

/-! ## Orchestrator

`Orchestrator.orchestrate` is modelled as a function of the three agents'
outcomes (the agent calls are oracles); the run record keeps, besides the
`OrchestrationResult`, the list of agents actually invoked and the emitted
progress events, in order. -/

/-- The `OrchestrationResult` record (Orchestrator.ts lines 9-16); omitted optional
fields are `none`. -/
structure OrchestrationResult where
  success : Bool
  siteArchitecture : Option JVal
  content : Option JVal
  design : Option JVal
  overallConfidence : ℚ
  errors : List String

/-- The three specialist agents the orchestrator drives. -/
inductive AgentName where
  | planning
  | design
  | content
deriving Repr, DecidableEq

/-- A progress event `{ step, progress, message }`. -/
structure OrchEvent where
  step : String
  progress : Nat
  message : String
deriving Repr, DecidableEq

/-- One orchestration run: its result, the agents invoked, and the
progress events emitted, in order. -/
structure OrchRun where
  result : OrchestrationResult
  calls : List AgentName
  events : List OrchEvent

/-- JavaScript `x.errors || [dflt]`: a present (even empty) array wins over the
fallback. -/
def orErrors (e : Option (List String)) (dflt : String) : List String :=
  match e with
  | some l => l
  | none => [dflt]

/-- The `progress: 10` planning event. -/
def planningEvent : OrchEvent :=
  ⟨"planning", 10, "Analyzing business and creating site architecture..."⟩

/-- The `progress: 30` design event. -/
def designEvent : OrchEvent :=
  ⟨"design", 30, "Selecting theme and design system..."⟩

/-- The `progress: 50` content event. -/
def contentEvent : OrchEvent :=
  ⟨"content", 50, "Generating page content and SEO metadata..."⟩

/-- The `progress: 100` completion event. -/
def completeEvent : OrchEvent :=
  ⟨"complete", 100, "Site generation complete!"⟩

/-- Model of `Orchestrator.orchestrate` given the three agents' outcomes: planning
failure returns early (success `false`, confidence 0, the planning errors);
otherwise design and content failures are folded into `errors`, each
successful agent contributes its confidence, and the overall confidence is
the mean of the collected confidences.  Reading `planningResult.data.pages`
throws (into the surrounding `catch`) when `data` is `undefined` or
`null`. -/
def orchestrate (pRes dRes cRes : AgentOutput) : OrchRun :=
  if pRes.success = false then
    { result := ⟨false, none, none, none, 0, orErrors pRes.errors "Planning failed"⟩,
      calls := [.planning],
      events := [planningEvent] }
  else
    let errsD := if dRes.success then [] else orErrors dRes.errors "Design selection failed"
    match jsAccessOpt pRes.data "pages".toList with
    | .error m =>
      { result := ⟨false, none, none, none, 0, [m]⟩,
        calls := [.planning, .design],
        events := [planningEvent, designEvent, contentEvent] }
    | .ok _ =>
      let errs := errsD ++ (if cRes.success then [] else orErrors cRes.errors "Content generation failed")
      let confs := pRes.confidence ::
        ((if dRes.success then [dRes.confidence] else []) ++
         (if cRes.success then [cRes.confidence] else []))
      { result :=
          ⟨errs.isEmpty, pRes.data,
           if cRes.success then cRes.data else none,
           if dRes.success then dRes.data else none,
           confs.sum / (confs.length : ℚ), errs⟩,
        calls := [.planning, .design, .content],
        events := [planningEvent, designEvent, contentEvent, completeEvent] }

/-! ## WordPress integration errors

The classes of src/backend-node/src/integrations/wordpress/errors.ts as
one classification type.  `WPAuthError` fixes `statusCode` 401 and code
`WP_AUTH_FAILED`; `WPNetworkError` fixes `statusCode` 503 and code
`WP_NETWORK_ERROR`; `SSHError` carries the failing command. -/

/-- A thrown WordPress-integration error. -/
inductive WPIErr where
  | sshError (message : String) (command : Option String)
  | wpError (message : String) (statusCode : Option Int) (code : Option String)
  | wpAuthError (message : String)
  | wpNetworkError (message : String)
deriving Repr, DecidableEq

/-- The thrown error's `message` property. -/
def errMessage : WPIErr → String
  | .sshError m _ => m
  | .wpError m _ _ => m
  | .wpAuthError m => m
  | .wpNetworkError m => m

/-- The error class an error belongs to (which constructor was thrown). -/
inductive ErrClass where
  | sshC
  | apiC
  | authC
  | networkC
deriving Repr, DecidableEq

/-- Classify a thrown error by its class. -/
def errClass : WPIErr → ErrClass
  | .sshError _ _ => .sshC
  | .wpError _ _ _ => .apiC
  | .wpAuthError _ => .authC
  | .wpNetworkError _ => .networkC

/-! ## Remote Command Channel (`SSHClient`) -/

/-- The `SSHConfig` record (types.ts): connection parameters plus the remote working
directory `path`. -/
structure SSHConfig where
  host : String
  port : Option Nat
  username : String
  privateKey : Option String
  password : Option String
  path : String

/-- What the remote side does with one executed command string: an
exec-level error, or an exit code with captured stdout and stderr. -/
structure CmdResult where
  execErr : Option String
  exitCode : Int
  stdout : String
  stderr : String

/-- The transport oracle for one `SSHClient`: whether connections succeed
(and the connection error's message when not), and the remote outcome of
each full command string. -/
structure SSHEnv where
  connectOk : Bool
  connectErr : String
  run : String → CmdResult

/-- The command actually executed remotely:
`cd ${this.config.path} && ${command}`. -/
def fullCommand (cfg : SSHConfig) (command : String) : String :=
  "cd " ++ cfg.path ++ " && " ++ command

/-- Model of `String.prototype.trim` on `String`. -/
def trimString (s : String) : String := String.mk (trimChars s.data)

/-- Model of `SSHClient.executeCommand`: connect (a connection failure is caught and
re-thrown as `SSHError(error.message, command)`); execute the command in
the working directory; an exec error rejects with
`SSHError(err.message, command)`; a non-zero exit code rejects with
`SSHError('Command failed with code ' + code + ': ' + stderr, command)`;
exit code 0 resolves with the trimmed stdout. -/
def executeCommand (env : SSHEnv) (cfg : SSHConfig) (command : String) :
    Except WPIErr String :=
  if env.connectOk then
    let r := env.run (fullCommand cfg command)
    match r.execErr with
    | some m => .error (.sshError m (some command))
    | none =>
      if r.exitCode = 0 then .ok (trimString r.stdout)
      else
        .error (.sshError
          ("Command failed with code " ++ toString r.exitCode ++ ": " ++ r.stderr)
          (some command))
  else .error (.sshError env.connectErr (some command))

/-- The WP-CLI command string of `wpCoreInstall`. -/
def wpCoreInstallCmd (url title adminUser adminPass adminEmail : String) : String :=
  "wp core install --url=\"" ++ url ++ "\" --title=\"" ++ title ++
    "\" --admin_user=\"" ++ adminUser ++ "\" --admin_password=\"" ++ adminPass ++
    "\" --admin_email=\"" ++ adminEmail ++ "\""

/-- The WP-CLI command string of `wpPluginInstall`. -/
def wpPluginInstallCmd (plugin : String) (activate : Bool) : String :=
  "wp plugin install " ++ plugin ++ " " ++ (if activate then "--activate" else "")

/-- The WP-CLI command string of `wpThemeInstall`. -/
def wpThemeInstallCmd (theme : String) (activate : Bool) : String :=
  "wp theme install " ++ theme ++ " " ++ (if activate then "--activate" else "")

/-- Model of `SSHClient.wpCoreInstall`. -/
def wpCoreInstall (env : SSHEnv) (cfg : SSHConfig)
    (url title adminUser adminPass adminEmail : String) : Except WPIErr String :=
  executeCommand env cfg (wpCoreInstallCmd url title adminUser adminPass adminEmail)

/-- Model of `SSHClient.wpPluginInstall` (the service calls it with the default
`activate = true`). -/
def wpPluginInstall (env : SSHEnv) (cfg : SSHConfig) (plugin : String)
    (activate : Bool) : Except WPIErr String :=
  executeCommand env cfg (wpPluginInstallCmd plugin activate)

/-- Model of `SSHClient.wpThemeInstall`. -/
def wpThemeInstall (env : SSHEnv) (cfg : SSHConfig) (theme : String)
    (activate : Bool) : Except WPIErr String :=
  executeCommand env cfg (wpThemeInstallCmd theme activate)

/-! ## Deployment Engine (`WordPressService.deploySite`) -/

/-- The `PluginConfig` record (types.ts): the plan-level plugin description, with its
criticality flag.  `WordPressService.deploySite` receives plain slug
strings and never consults `required`. -/
structure PluginConfig where
  slug : String
  name : String
  required : Bool
  settings : Option JVal

/-- The deployment payload `deploySite` reads (`deploymentData`). -/
structure DeploymentData where
  url : String
  title : String
  adminUser : String
  adminPass : String
  adminEmail : String
  theme : Option String
  plugins : List String

/-- A `{ step, message }` progress event of the deployment service. -/
structure ProgEvent where
  step : String
  message : String
deriving Repr, DecidableEq

/-- One deployment run: the progress events emitted, the WP-CLI commands
attempted (in order), the site status written to the database, and the
overall outcome (the service rethrows the failing error). -/
structure DeployRun where
  events : List ProgEvent
  cmds : List String
  dbStatus : Option String
  result : Except WPIErr Unit

/-- The `catch` block of `deploySite`: emit a `failed` event with the
error's message, persist status `FAILED`, rethrow. -/
def failRun (evs : List ProgEvent) (cmds : List String) (e : WPIErr) : DeployRun :=
  ⟨evs ++ [⟨"failed", errMessage e⟩], cmds, some "FAILED", .error e⟩

/-- The success tail of `deploySite`: persist status `DEPLOYED`, emit the
`completed` event. -/
def finishRun (evs : List ProgEvent) (cmds : List String) : DeployRun :=
  ⟨evs ++ [⟨"completed", "Deployment successful!"⟩], cmds, some "DEPLOYED", .ok ()⟩

/-- The plugin loop of `deploySite`: install each plugin in order; the
first failure aborts the whole run through the `catch` block. -/
def deployPlugins (env : SSHEnv) (cfg : SSHConfig) (evs : List ProgEvent)
    (cmds : List String) : List String → DeployRun
  | [] => finishRun evs cmds
  | p :: ps =>
    let cmds' := cmds ++ [wpPluginInstallCmd p true]
    match wpPluginInstall env cfg p true with
    | .error e => failRun evs cmds' e
    | .ok _ => deployPlugins env cfg evs cmds' ps

/-- The plugin stage: the `plugins_install` event is emitted only when the
plugin list is non-empty, then the loop runs. -/
def deployPluginsStage (env : SSHEnv) (cfg : SSHConfig) (evs : List ProgEvent)
    (cmds : List String) (plugins : List String) : DeployRun :=
  if plugins.isEmpty then deployPlugins env cfg evs cmds plugins
  else deployPlugins env cfg (evs ++ [⟨"plugins_install", "Installing plugins..."⟩]) cmds plugins

/-- Model of `WordPressService.deploySite`: install core, install the theme when one
is configured, install every plugin, persist `DEPLOYED` and emit
`completed`; any failure is caught once — emit `failed`, persist `FAILED`,
rethrow — so no later step runs. -/
def deploySite (env : SSHEnv) (cfg : SSHConfig) (dd : DeploymentData) : DeployRun :=
  let evs := [⟨"init", "Initializing deployment..."⟩,
              ⟨"core_install", "Installing WordPress Core..."⟩]
  let cmds := [wpCoreInstallCmd dd.url dd.title dd.adminUser dd.adminPass dd.adminEmail]
  match wpCoreInstall env cfg dd.url dd.title dd.adminUser dd.adminPass dd.adminEmail with
  | .error e => failRun evs cmds e
  | .ok _ =>
    match dd.theme with
    | some t =>
      let evs2 := evs ++ [⟨"theme_install", "Installing theme: " ++ t⟩]
      let cmds2 := cmds ++ [wpThemeInstallCmd t true]
      match wpThemeInstall env cfg t true with
      | .error e => failRun evs2 cmds2 e
      | .ok _ => deployPluginsStage env cfg evs2 cmds2 dd.plugins
    | none => deployPluginsStage env cfg evs cmds dd.plugins

/-! ## Content API Client (`WordPressAPIClient` response interceptor) -/

/-- The part of an axios HTTP error response the interceptor reads. -/
structure AxiosResponseInfo where
  status : Int
  dataMessage : Option String
  dataCode : Option String

/-- An axios failure: a received non-2xx response, or a sent-but-unanswered
request (`error.request` with no `error.response`), or neither. -/
structure AxiosFailure where
  response : Option AxiosResponseInfo
  hasRequest : Bool
  message : String

/-- The response interceptor of `WordPressAPIClient`: a received 401 throws
`WPAuthError`; any other received response throws
`WPError(data?.message || 'WordPress API Error', status, data?.code)`; a
transport failure (request sent, no response) throws
`WPNetworkError(error.message)`; anything else rethrows the original
error. -/
def interceptError (e : AxiosFailure) : WPIErr ⊕ AxiosFailure :=
  match e.response with
  | some r =>
    if r.status = 401 then .inl (.wpAuthError "WordPress Authentication Failed")
    else .inl (.wpError (r.dataMessage.getD "WordPress API Error") (some r.status) r.dataCode)
  | none =>
    if e.hasRequest then .inl (.wpNetworkError e.message)
    else .inr e

/-! ## Statement-side helpers and concrete fixtures -/

/-- Lift a `JSON.parse` outcome to the result of `parseJSONResponse`: a
missing payload is the thrown malformed-response error. -/
def toPayload (o : Option JVal) : Except AIFault JVal :=
  match o with
  | some v => .ok v
  | none => .error (.malformed "Invalid JSON response from AI")

/-- The specification's description of which confidences enter the overall
mean: Planning's always, Design's and Content's exactly when that agent
succeeded (spec §4.3 step 3).  Stated from the spec's words, to be compared
against what `orchestrate` computes. -/
def specSucceededConfidences (pRes dRes cRes : AgentOutput) : List ℚ :=
  pRes.confidence ::
    ((if dRes.success then [dRes.confidence] else []) ++
     (if cRes.success then [cRes.confidence] else []))

/-- The `init` progress event of a deployment run. -/
def initEvent : ProgEvent := ⟨"init", "Initializing deployment..."⟩

/-- The `core_install` progress event. -/
def coreInstallEvent : ProgEvent := ⟨"core_install", "Installing WordPress Core..."⟩

/-- The `plugins_install` progress event. -/
def pluginsInstallEvent : ProgEvent := ⟨"plugins_install", "Installing plugins..."⟩

/-- The theme-stage events of a deployment: one `theme_install` event when
a theme is configured, none otherwise. -/
def themeEvents : Option String → List ProgEvent
  | some t => [⟨"theme_install", "Installing theme: " ++ t⟩]
  | none => []

/-- The theme-stage commands of a deployment. -/
def themeCmds : Option String → List String
  | some t => [wpThemeInstallCmd t true]
  | none => []

/-- The core-install command of a deployment payload. -/
def coreCmdOf (dd : DeploymentData) : String :=
  wpCoreInstallCmd dd.url dd.title dd.adminUser dd.adminPass dd.adminEmail

/-- A successful planning outcome used by witnesses. -/
def sampleOkPlanning : AgentOutput :=
  ⟨true, 17/20,
   some (.jobj [("pages".toList, .jarr [.jobj [("slug".toList, .jstr "home".toList)]])]),
   none, none⟩

/-- A successful design outcome used by witnesses. -/
def sampleOkDesign : AgentOutput :=
  ⟨true, 4/5, some (.jobj [("theme".toList, .jstr "astra".toList)]), none, none⟩

/-- A failed content outcome used by witnesses. -/
def sampleFailContent : AgentOutput :=
  ⟨false, 0, none, none, some ["Invalid JSON response from AI"]⟩

/-- A failed planning outcome used by witnesses. -/
def sampleFailPlanning : AgentOutput :=
  ⟨false, 0, none, none, some ["AI generation failed: socket hang up"]⟩

/-- An `AgentInput` used by witnesses. -/
def sampleInput : AgentInput :=
  ⟨"Joes Pizza", "restaurant", "Family pizza restaurant in Brooklyn", none, none⟩

/-- An SSH transport whose connections fail (an unreachable host). -/
def unreachableEnv : SSHEnv :=
  ⟨false, "connect ECONNREFUSED 203.0.113.10:22", fun _ => ⟨none, 0, "", ""⟩⟩

/-- An `SSHConfig` used by witnesses. -/
def demoSSHConfig : SSHConfig :=
  ⟨"203.0.113.10", some 22, "deploy", none, some "secret", "/var/www/html"⟩

/-- An SSH transport on which every command succeeds with stdout
`  done  `. -/
def allOkEnv : SSHEnv := ⟨true, "", fun _ => ⟨none, 0, "  done  ", ""⟩⟩

/-- An SSH transport on which exactly the `woocommerce` plugin install
exits 1 and every other command succeeds. -/
def failWooEnv : SSHEnv :=
  ⟨true, "",
   fun c =>
     if c = fullCommand demoSSHConfig (wpPluginInstallCmd "woocommerce" true) then
       ⟨none, 1, "", "Plugin not found"⟩
     else ⟨none, 0, "done", ""⟩⟩

/-- A required plugin of the plan, used by witnesses. -/
def requiredPluginCfg : PluginConfig := ⟨"woocommerce", "WooCommerce", true, none⟩

/-- An optional (non-required) plugin of the plan. -/
def optionalPluginCfg : PluginConfig := ⟨"hello-dolly", "Hello Dolly", false, none⟩

/-- A deployment payload whose only plugin is the required one. -/
def requiredPluginData : DeploymentData :=
  ⟨"https://example.com", "Example", "admin", "pw", "admin@example.com",
   some "astra", [requiredPluginCfg.slug]⟩

/-- An SSH transport on which exactly the `hello-dolly` plugin install
exits 1 and every other command succeeds. -/
def failDollyEnv : SSHEnv :=
  ⟨true, "",
   fun c =>
     if c = fullCommand demoSSHConfig (wpPluginInstallCmd "hello-dolly" true) then
       ⟨none, 1, "", "Plugin not found"⟩
     else ⟨none, 0, "done", ""⟩⟩

/-- A deployment payload whose only plugin is the optional one, all other
steps succeeding on `failDollyEnv`. -/
def optionalPluginData : DeploymentData :=
  ⟨"https://example.com", "Example", "admin", "pw", "admin@example.com",
   some "astra", [optionalPluginCfg.slug]⟩

/-- A remainder that cannot extend a numeral: empty or not digit-headed
(every JSON delimiter and the end of input qualify). -/
def numStop : List Char → Bool
  | [] => true
  | c :: _ => !isDigitCh c

/-! # Theorems -/

/-- Skipping whitespace is the identity on a non-whitespace head. -/
theorem skipSpace_nws {c : Char} (t : List Char) (h : isWsCh c = false) :
    skipSpace (c :: t) = c :: t := by
  simp [skipSpace, h]

/-- A literal token strips off the front of itself. -/
theorem stripTok_pre (tok rest : List Char) : stripTok tok (tok ++ rest) = some rest := by
  induction tok with
  | nil => rfl
  | cons c t ih => simp [stripTok, ih]

/-- Stripping a token fails on a differing head. -/
theorem stripTok_ne {tc : Char} (ts : List Char) {c : Char} (cs : List Char) (h : c ≠ tc) :
    stripTok (tc :: ts) (c :: cs) = none := by
  simp [stripTok, h]

/-- A successful strip exposes the token as a prefix. -/
theorem stripTok_some_pre :
    ∀ (tok cs r : List Char), stripTok tok cs = some r → cs = tok ++ r
  | [], cs, r => by
    intro h
    simp [stripTok] at h
    simp [h]
  | tc :: ts, [], r => by
    intro h
    simp [stripTok] at h
  | tc :: ts, c :: cs, r => by
    intro h
    by_cases hc : c = tc
    · subst hc
      simp only [stripTok, if_pos rfl] at h
      simpa using stripTok_some_pre ts cs r h
    · simp [stripTok, hc] at h

/-- A digit character is none of the value-starting or delimiter
characters, and is not whitespace. -/
theorem digit_head_props {c : Char} (h : isDigitCh c = true) :
    c ≠ 'n' ∧ c ≠ 't' ∧ c ≠ 'f' ∧ c ≠ '"' ∧ c ≠ '[' ∧ c ≠ lbrace ∧ c ≠ '-' ∧
    c ≠ ']' ∧ c ≠ rbrace ∧ c ≠ ',' ∧ c ≠ ':' ∧ isWsCh c = false := by
  refine ⟨?_, ?_, ?_, ?_, ?_, ?_, ?_, ?_, ?_, ?_, ?_, ?_⟩ <;>
    first
      | (intro hc; subst hc; exact absurd h (by decide))
      | (rcases hw : isWsCh c with _ | _
         · rfl
         · exfalso
           simp only [isWsCh, Bool.or_eq_true, decide_eq_true_eq] at hw
           rcases hw with ((hc | hc) | hc) | hc <;> (subst hc; exact absurd h (by decide)))

/-- The digit character of `d < 10` is a digit and carries `d`. -/
theorem digitCh_spec {d : Nat} (h : d < 10) :
    isDigitCh (digitCh d) = true ∧ (digitCh d).toNat = 48 + d := by
  interval_cases d <;> exact ⟨by decide, by decide⟩

/-- Digit runs of a natural number: non-empty and all digits. -/
theorem natChars_ne_nil_all_digits (n : Nat) :
    natChars n ≠ [] ∧ ∀ c ∈ natChars n, isDigitCh c = true := by
  induction n using Nat.strong_induction_on with
  | _ n ih =>
    rw [natChars]
    by_cases h : n < 10
    · simp only [if_pos h]
      exact ⟨by simp, by
        intro c hc
        rw [List.mem_singleton] at hc
        subst hc
        exact (digitCh_spec h).1⟩
    · simp only [if_neg h]
      refine ⟨by simp, ?_⟩
      intro c hc
      rw [List.mem_append] at hc
      rcases hc with hc | hc
      · exact (ih (n / 10) (Nat.div_lt_self (by omega) (by omega))).2 c hc
      · rw [List.mem_singleton] at hc
        subst hc
        exact (digitCh_spec (Nat.mod_lt _ (by omega))).1

/-- Grabbing digits stops immediately at a `numStop` remainder. -/
theorem grabDigits_stop {rest : List Char} (h : numStop rest = true) :
    grabDigits rest = ([], rest) := by
  cases rest with
  | nil => rfl
  | cons c t =>
    simp only [numStop, Bool.not_eq_true'] at h
    simp [grabDigits, h]

/-- Grabbing digits consumes exactly a leading digit run. -/
theorem grabDigits_run (ds : List Char) (hds : ∀ c ∈ ds, isDigitCh c = true)
    (rest : List Char) (hrest : grabDigits rest = ([], rest)) :
    grabDigits (ds ++ rest) = (ds, rest) := by
  induction ds with
  | nil => simpa using hrest
  | cons c t ih =>
    have hc : isDigitCh c = true := hds c (by simp)
    have ht := ih (fun x hx => hds x (by simp [hx]))
    simp [grabDigits, hc, ht]

/-- The digit run of `n` evaluates back to `n`. -/
theorem digitsVal_natChars (n : Nat) : digitsVal (natChars n) = n := by
  induction n using Nat.strong_induction_on with
  | _ n ih =>
    rw [natChars]
    by_cases h : n < 10
    · simp only [if_pos h]
      simp [digitsVal, (digitCh_spec h).2]
    · simp only [if_neg h]
      have hrec := ih (n / 10) (Nat.div_lt_self (by omega) (by omega))
      simp only [digitsVal, List.foldl_append, List.foldl_cons, List.foldl_nil]
      rw [show ∀ a, List.foldl (fun a c => a * 10 + (c.toNat - 48)) a (natChars (n / 10))
            = a * 10 ^ (natChars (n / 10)).length + digitsVal (natChars (n / 10)) from ?_]
      · rw [hrec, (digitCh_spec (Nat.mod_lt _ (by omega))).2]
        simp
        omega
      · intro a
        clear hrec
        induction natChars (n / 10) generalizing a with
        | nil => simp [digitsVal]
        | cons c t iht =>
          simp only [List.foldl_cons, digitsVal, pow_succ]
          rw [iht, iht (0 * 10 + (c.toNat - 48))]
          simp only [List.length_cons, pow_succ]
          ring

/-- Rendered integers start with a minus sign or a digit. -/
theorem intChars_head (i : Int) :
    ∃ c t, intChars i = c :: t ∧ (c = '-' ∨ isDigitCh c = true) := by
  obtain ⟨hne, hall⟩ := natChars_ne_nil_all_digits i.natAbs
  rw [intChars]
  by_cases hi : i < 0
  · exact ⟨'-', natChars i.natAbs, by simp [hi], Or.inl rfl⟩
  · simp only [if_neg hi]
    cases hnc : natChars i.natAbs with
    | nil => exact absurd hnc hne
    | cons c t =>
      exact ⟨c, t, rfl, Or.inr (hall c (hnc ▸ List.mem_cons_self c t))⟩

/-- Unfolding `pNum` on a cons cell (definitional). -/
theorem pNum_cons (c : Char) (t : List Char) :
    pNum (c :: t) =
      if c = '-' then
        let r := grabDigits t
        if r.1.isEmpty then none else some (.jnum (-(digitsVal r.1 : Int)), r.2)
      else
        let r := grabDigits (c :: t)
        if r.1.isEmpty then none else some (.jnum (digitsVal r.1), r.2) := rfl

/-- The numeral codec round-trip: `pNum` inverts `intChars` whenever the
remainder cannot extend the digit run. -/
theorem pNum_render (i : Int) (rest : List Char) (hr : numStop rest = true) :
    pNum (intChars i ++ rest) = some (.jnum i, rest) := by
  obtain ⟨hne, hall⟩ := natChars_ne_nil_all_digits i.natAbs
  have hgrab : grabDigits (natChars i.natAbs ++ rest) = (natChars i.natAbs, rest) :=
    grabDigits_run _ hall _ (grabDigits_stop hr)
  have hee : (natChars i.natAbs).isEmpty = false := by
    cases hnc : natChars i.natAbs with
    | nil => exact absurd hnc hne
    | cons c t => rfl
  rw [intChars]
  by_cases hi : i < 0
  · simp only [if_pos hi, List.cons_append, pNum_cons, if_pos rfl, hgrab, hee,
      Bool.false_eq_true, if_false, digitsVal_natChars]
    rw [Int.ofNat_natAbs_of_nonpos (le_of_lt hi), neg_neg]
    simp
  · simp only [if_neg hi]
    cases hnc : natChars i.natAbs with
    | nil => exact absurd hnc hne
    | cons c t =>
      have hc : isDigitCh c = true := hall c (hnc ▸ List.mem_cons_self c t)
      have hnm : c ≠ '-' := (digit_head_props hc).2.2.2.2.2.2.1
      rw [hnc] at hgrab
      have hdv : digitsVal (c :: t) = i.natAbs := by
        rw [← hnc, digitsVal_natChars]
      rw [List.cons_append, pNum_cons, if_neg hnm]
      simp only [← List.cons_append, hgrab, hdv, List.isEmpty_cons, Bool.false_eq_true, if_false]
      rw [Int.natAbs_of_nonneg (not_lt.mp hi)]

/-- Unpacking a plain string character. -/
theorem charOk_elim {c : Char} (h : charOk c = true) :
    c ≠ '"' ∧ c ≠ '\\' ∧ 32 ≤ c.toNat := by
  have := h
  simp only [charOk, bne_iff_ne, decide_eq_true_eq, Bool.and_eq_true] at this
  exact ⟨this.1.1, this.1.2, this.2⟩

/-- The string-body codec round-trip: parsing a rendered plain string stops
exactly at the closing quote. -/
theorem pStrBody_render (s : List Char) (hs : sOk s = true) (rest : List Char) :
    pStrBody (s ++ '"' :: rest) = some (s, rest) := by
  induction s with
  | nil => simp [pStrBody]
  | cons c t ih =>
    have hall : charOk c = true ∧ sOk t = true := by
      simpa [sOk, List.all_cons, Bool.and_eq_true] using hs
    obtain ⟨h1, h2, h3⟩ := charOk_elim hall.1
    have hlt : ¬(c.toNat < 32) := by omega
    simp [pStrBody, h1, h2, hlt, ih hall.2]

/-- Every rendered value starts with a quote, an opening bracket or brace,
a sign or digit, or the head letter of a keyword. -/
theorem render_head (v : JVal) :
    ∃ c t, render v = c :: t ∧
      (c = '"' ∨ c = '[' ∨ c = lbrace ∨ c = '-' ∨ isDigitCh c = true ∨
        c = 'n' ∨ c = 't' ∨ c = 'f') := by
  cases v with
  | jnull => exact ⟨'n', ['u', 'l', 'l'], by simp [render, nullTok], by tauto⟩
  | jbool b =>
    cases b with
    | false => exact ⟨'f', ['a', 'l', 's', 'e'], by simp [render, falseTok], by tauto⟩
    | true => exact ⟨'t', ['r', 'u', 'e'], by simp [render, trueTok], by tauto⟩
  | jnum n =>
    obtain ⟨c, t, hct, hd⟩ := intChars_head n
    exact ⟨c, t, by simp [render, hct], by rcases hd with h | h <;> tauto⟩
  | jstr s => exact ⟨'"', s ++ ['"'], by simp [render], by tauto⟩
  | jarr vs => exact ⟨'[', renderItems vs ++ [']'], by simp [render], by tauto⟩
  | jobj fs => exact ⟨lbrace, renderFields fs ++ [rbrace], by simp [render], by tauto⟩

/-- A value-starting character is not whitespace and is none of the
delimiters the parser looks for after a value. -/
theorem head_props {c : Char}
    (h : c = '"' ∨ c = '[' ∨ c = lbrace ∨ c = '-' ∨ isDigitCh c = true ∨
      c = 'n' ∨ c = 't' ∨ c = 'f') :
    isWsCh c = false ∧ c ≠ ']' ∧ c ≠ rbrace ∧ c ≠ ',' ∧ c ≠ ':' := by
  rcases h with h | h | h | h | h | h | h | h
  all_goals first
    | (subst h; exact ⟨by decide, by decide, by decide, by decide, by decide⟩)
    | (obtain ⟨-, -, -, -, -, -, -, h8, h9, h10, h11, h12⟩ := digit_head_props h
       exact ⟨h12, h8, h9, h10, h11⟩)

/-- The digit run of `m`, reversed, starts with a digit. -/
theorem natChars_rev_head (m : Nat) :
    ∃ c t, (natChars m).reverse = c :: t ∧ isDigitCh c = true := by
  obtain ⟨hne, hall⟩ := natChars_ne_nil_all_digits m
  cases hrev : (natChars m).reverse with
  | nil => exact absurd (by simpa using congrArg List.reverse hrev) hne
  | cons c t =>
    refine ⟨c, t, rfl, hall c ?_⟩
    have : c ∈ (natChars m).reverse := hrev ▸ List.mem_cons_self c t
    simpa using this

/-- Every rendered value ends (reverse starts) with a non-whitespace
character. -/
theorem render_last (v : JVal) :
    ∃ c t, (render v).reverse = c :: t ∧ isWsCh c = false := by
  cases v with
  | jnull => exact ⟨'l', ['l', 'u', 'n'], by simp [render, nullTok], by decide⟩
  | jbool b =>
    cases b with
    | false => exact ⟨'e', ['s', 'l', 'a', 'f'], by simp [render, falseTok], by decide⟩
    | true => exact ⟨'e', ['u', 'r', 't'], by simp [render, trueTok], by decide⟩
  | jnum n =>
    obtain ⟨c, t, hct, hd⟩ := natChars_rev_head n.natAbs
    have hw : isWsCh c = false := (digit_head_props hd).2.2.2.2.2.2.2.2.2.2.2
    by_cases hn : (n : Int) < 0
    · exact ⟨c, t ++ ['-'], by simp [render, intChars, hn, hct], hw⟩
    · exact ⟨c, t, by simp [render, intChars, hn, hct], hw⟩
  | jstr s =>
    exact ⟨'"', s.reverse ++ ['"'], by simp [render], by decide⟩
  | jarr vs =>
    exact ⟨']', (renderItems vs).reverse ++ ['['], by simp [render], by decide⟩
  | jobj fs =>
    exact ⟨rbrace, (renderFields fs).reverse ++ [lbrace], by simp [render], by decide⟩

/-- Trimming is the identity on a rendered value: it neither starts nor
ends with whitespace. -/
theorem trim_render (v : JVal) : trimChars (render v) = render v := by
  obtain ⟨c1, t1, hct1, hd1⟩ := render_head v
  obtain ⟨c2, t2, hct2, hw2⟩ := render_last v
  have h1 : skipSpace (render v) = render v := by
    rw [hct1]
    exact skipSpace_nws _ (head_props hd1).1
  rw [trimChars, h1, hct2, skipSpace_nws _ hw2, ← hct2, List.reverse_reverse]

/-- Every value needs at least one unit of fuel. -/
theorem fuelVal_pos (v : JVal) : 1 ≤ fuelVal v := by
  cases v <;> simp [fuelVal]

/-- A non-empty item list needs at least one unit of fuel. -/
theorem fuelItems_pos (v : JVal) (vs : List JVal) : 1 ≤ fuelItems (v :: vs) := by
  simp [fuelItems]
  omega

/-- A non-empty member list needs at least one unit of fuel. -/
theorem fuelFields_pos (kv : List Char × JVal) (fs : List (List Char × JVal)) :
    1 ≤ fuelFields (kv :: fs) := by
  simp [fuelFields]
  omega

/-! The codec round-trip, by mutual induction on the fuel: with enough fuel,
parsing a rendered well-formed value (item list, member list) recovers it
and leaves exactly the remainder. -/

mutual

theorem pVal_render : ∀ (fuel : Nat) (v : JVal) (rest : List Char),
    WF v = true → fuelVal v ≤ fuel → numStop rest = true →
    pVal fuel (render v ++ rest) = some (v, rest)
  | 0, v, rest => by
    intro _ hf _
    have := fuelVal_pos v
    omega
  | fuel + 1, v, rest => by
    intro hw hf hr
    cases v with
    | jnull =>
      rw [show render JVal.jnull = nullTok by simp [render]]
      have hss : skipSpace (nullTok ++ rest) = nullTok ++ rest :=
        skipSpace_nws (['u', 'l', 'l'] ++ rest) (by decide)
      simp only [pVal, hss, stripTok_pre]
    | jbool b =>
      cases b with
      | true =>
        rw [show render (JVal.jbool true) = trueTok by simp [render]]
        have hss : skipSpace (trueTok ++ rest) = trueTok ++ rest :=
          skipSpace_nws (['r', 'u', 'e'] ++ rest) (by decide)
        have h1 : stripTok nullTok (trueTok ++ rest) = none :=
          stripTok_ne ['u', 'l', 'l'] (['r', 'u', 'e'] ++ rest) (by decide)
        simp only [pVal, hss, h1, stripTok_pre]
      | false =>
        rw [show render (JVal.jbool false) = falseTok by simp [render]]
        have hss : skipSpace (falseTok ++ rest) = falseTok ++ rest :=
          skipSpace_nws (['a', 'l', 's', 'e'] ++ rest) (by decide)
        have h1 : stripTok nullTok (falseTok ++ rest) = none :=
          stripTok_ne ['u', 'l', 'l'] (['a', 'l', 's', 'e'] ++ rest) (by decide)
        have h2 : stripTok trueTok (falseTok ++ rest) = none :=
          stripTok_ne ['r', 'u', 'e'] (['a', 'l', 's', 'e'] ++ rest) (by decide)
        simp only [pVal, hss, h1, h2, stripTok_pre]
    | jnum n =>
      obtain ⟨c, t, hct, hd⟩ := intChars_head n
      have hprops : c ≠ 'n' ∧ c ≠ 't' ∧ c ≠ 'f' ∧ c ≠ '"' ∧ c ≠ '[' ∧ c ≠ lbrace ∧
          isWsCh c = false := by
        rcases hd with h | h
        · subst h
          exact ⟨by decide, by decide, by decide, by decide, by decide, by decide, by decide⟩
        · obtain ⟨p1, p2, p3, p4, p5, p6, -, -, -, -, -, p12⟩ := digit_head_props h
          exact ⟨p1, p2, p3, p4, p5, p6, p12⟩
      obtain ⟨q1, q2, q3, q4, q5, q6, q7⟩ := hprops
      have hnum : (decide (c = '-') || isDigitCh c) = true := by
        rcases hd with h | h
        · subst h
          decide
        · simp [h]
      rw [show render (JVal.jnum n) = intChars n by simp [render], hct, List.cons_append]
      have hss : skipSpace (c :: (t ++ rest)) = c :: (t ++ rest) := skipSpace_nws _ q7
      have h1 : stripTok nullTok (c :: (t ++ rest)) = none := stripTok_ne ['u', 'l', 'l'] _ q1
      have h2 : stripTok trueTok (c :: (t ++ rest)) = none := stripTok_ne ['r', 'u', 'e'] _ q2
      have h3 : stripTok falseTok (c :: (t ++ rest)) = none :=
        stripTok_ne ['a', 'l', 's', 'e'] _ q3
      simp only [pVal, hss, h1, h2, h3, if_neg q4, if_neg q5, if_neg q6, hnum]
      rw [if_pos trivial, ← List.cons_append, ← hct]
      exact pNum_render n rest hr
    | jstr s =>
      have hsOk : sOk s = true := by simpa [WF] using hw
      rw [show render (JVal.jstr s) ++ rest = '"' :: (s ++ '"' :: rest) by
        simp [render]]
      have hss : skipSpace ('"' :: (s ++ '"' :: rest)) = '"' :: (s ++ '"' :: rest) :=
        skipSpace_nws _ (by decide)
      have h1 : stripTok nullTok ('"' :: (s ++ '"' :: rest)) = none :=
        stripTok_ne ['u', 'l', 'l'] _ (by decide)
      have h2 : stripTok trueTok ('"' :: (s ++ '"' :: rest)) = none :=
        stripTok_ne ['r', 'u', 'e'] _ (by decide)
      have h3 : stripTok falseTok ('"' :: (s ++ '"' :: rest)) = none :=
        stripTok_ne ['a', 'l', 's', 'e'] _ (by decide)
      simp only [pVal, hss, h1, h2, h3, if_true, pStrBody_render s hsOk rest]
    | jarr vs =>
      have hWF : WFitems vs = true := by simpa [WF] using hw
      have hfu : fuelItems vs ≤ fuel := by
        simp only [fuelVal] at hf
        omega
      rw [show render (JVal.jarr vs) ++ rest = '[' :: (renderItems vs ++ ']' :: rest) by
        simp [render]]
      have hss : skipSpace ('[' :: (renderItems vs ++ ']' :: rest))
          = '[' :: (renderItems vs ++ ']' :: rest) := skipSpace_nws _ (by decide)
      have h1 : stripTok nullTok ('[' :: (renderItems vs ++ ']' :: rest)) = none :=
        stripTok_ne ['u', 'l', 'l'] _ (by decide)
      have h2 : stripTok trueTok ('[' :: (renderItems vs ++ ']' :: rest)) = none :=
        stripTok_ne ['r', 'u', 'e'] _ (by decide)
      have h3 : stripTok falseTok ('[' :: (renderItems vs ++ ']' :: rest)) = none :=
        stripTok_ne ['a', 'l', 's', 'e'] _ (by decide)
      simp only [pVal, hss, h1, h2, h3, if_neg (by decide : ¬('[' : Char) = '"'), if_true]
      cases vs with
      | nil =>
        rw [show renderItems [] = ([] : List Char) by simp [renderItems]]
        simp +decide [skipSpace]
      | cons v vs2 =>
        obtain ⟨ch, ct, hcht, hhd⟩ := render_head v
        obtain ⟨pw, pbr, pbr2, pc, pcol⟩ := head_props hhd
        obtain ⟨X, hX⟩ : ∃ X, renderItems (v :: vs2) = ch :: X := by
          cases vs2 with
          | nil => exact ⟨ct, by simp [renderItems, hcht]⟩
          | cons w ws => exact ⟨ct ++ ',' :: renderItems (w :: ws), by simp [renderItems, hcht]⟩
        have hsk : skipSpace (ch :: (X ++ ']' :: rest)) = ch :: (X ++ ']' :: rest) :=
          skipSpace_nws _ pw
        have hit := pItems_render fuel (v :: vs2) rest (by simp) hWF hfu
        rw [hX, List.cons_append]
        simp only [hsk, if_neg pbr]
        rw [← List.cons_append, ← hX, hit]
    | jobj fs =>
      have hWF : WFfields fs = true := by simpa [WF] using hw
      have hfu : fuelFields fs ≤ fuel := by
        simp only [fuelVal] at hf
        omega
      rw [show render (JVal.jobj fs) ++ rest = lbrace :: (renderFields fs ++ rbrace :: rest) by
        simp [render]]
      have hss : skipSpace (lbrace :: (renderFields fs ++ rbrace :: rest))
          = lbrace :: (renderFields fs ++ rbrace :: rest) := skipSpace_nws _ (by decide)
      have h1 : stripTok nullTok (lbrace :: (renderFields fs ++ rbrace :: rest)) = none :=
        stripTok_ne ['u', 'l', 'l'] _ (by decide)
      have h2 : stripTok trueTok (lbrace :: (renderFields fs ++ rbrace :: rest)) = none :=
        stripTok_ne ['r', 'u', 'e'] _ (by decide)
      have h3 : stripTok falseTok (lbrace :: (renderFields fs ++ rbrace :: rest)) = none :=
        stripTok_ne ['a', 'l', 's', 'e'] _ (by decide)
      simp only [pVal, hss, h1, h2, h3, if_neg (by decide : ¬lbrace = '"'),
        if_neg (by decide : ¬lbrace = '['), if_true]
      cases fs with
      | nil =>
        rw [show renderFields [] = ([] : List Char) by simp [renderFields]]
        simp +decide [skipSpace]
      | cons kv fs2 =>
        obtain ⟨X, hX⟩ : ∃ X, renderFields (kv :: fs2) = '"' :: X := by
          cases fs2 with
          | nil => exact ⟨kv.1 ++ '"' :: ':' :: render kv.2, by simp [renderFields]⟩
          | cons kv2 fs3 =>
            exact ⟨kv.1 ++ '"' :: ':' :: (render kv.2 ++ ',' :: renderFields (kv2 :: fs3)),
              by simp [renderFields]⟩
        have hsk : skipSpace ('"' :: (X ++ rbrace :: rest)) = '"' :: (X ++ rbrace :: rest) :=
          skipSpace_nws _ (by decide)
        have hfi := pFields_render fuel (kv :: fs2) rest (by simp) hWF hfu
        rw [hX, List.cons_append]
        simp only [hsk, if_neg (by decide : ¬('"' : Char) = rbrace)]
        rw [← List.cons_append, ← hX, hfi]

theorem pItems_render : ∀ (fuel : Nat) (vs : List JVal) (rest : List Char),
    vs ≠ [] → WFitems vs = true → fuelItems vs ≤ fuel →
    pItems fuel (renderItems vs ++ ']' :: rest) = some (vs, rest)
  | 0, vs, rest => by
    intro hne _ hf
    cases vs with
    | nil => exact absurd rfl hne
    | cons v vs2 =>
      have := fuelItems_pos v vs2
      omega
  | fuel + 1, vs, rest => by
    intro hne hWF hfu
    cases vs with
    | nil => exact absurd rfl hne
    | cons v vs2 =>
      have hW : WF v = true ∧ WFitems vs2 = true := by
        simpa [WFitems, Bool.and_eq_true] using hWF
      have hfv : fuelVal v ≤ fuel ∧ fuelItems vs2 ≤ fuel := by
        simp only [fuelItems] at hfu
        omega
      cases vs2 with
      | nil =>
        rw [show renderItems [v] = render v by simp [renderItems]]
        have hpv : pVal fuel (render v ++ ']' :: rest) = some (v, ']' :: rest) :=
          pVal_render fuel v (']' :: rest) hW.1 hfv.1 rfl
        simp +decide [pItems, skipSpace, hpv]
      | cons w ws =>
        rw [show renderItems (v :: w :: ws) ++ ']' :: rest
            = render v ++ ',' :: (renderItems (w :: ws) ++ ']' :: rest) by
          simp [renderItems]]
        have hpv : pVal fuel (render v ++ ',' :: (renderItems (w :: ws) ++ ']' :: rest))
            = some (v, ',' :: (renderItems (w :: ws) ++ ']' :: rest)) :=
          pVal_render fuel v (',' :: (renderItems (w :: ws) ++ ']' :: rest)) hW.1 hfv.1 rfl
        have hit := pItems_render fuel (w :: ws) rest (by simp) hW.2 hfv.2
        simp +decide [pItems, skipSpace, hpv, hit]

theorem pFields_render : ∀ (fuel : Nat) (fs : List (List Char × JVal)) (rest : List Char),
    fs ≠ [] → WFfields fs = true → fuelFields fs ≤ fuel →
    pFields fuel (renderFields fs ++ rbrace :: rest) = some (fs, rest)
  | 0, fs, rest => by
    intro hne _ hf
    cases fs with
    | nil => exact absurd rfl hne
    | cons kv fs2 =>
      have := fuelFields_pos kv fs2
      omega
  | fuel + 1, fs, rest => by
    intro hne hWF hfu
    cases fs with
    | nil => exact absurd rfl hne
    | cons kv fs2 =>
      obtain ⟨k, v⟩ := kv
      have hW : sOk k = true ∧ WF v = true ∧ WFfields fs2 = true := by
        have := hWF
        simp only [WFfields, Bool.and_eq_true] at this
        exact ⟨this.1.1, this.1.2, this.2⟩
      have hfv : fuelVal v ≤ fuel ∧ fuelFields fs2 ≤ fuel := by
        simp only [fuelFields] at hfu
        omega
      cases fs2 with
      | nil =>
        rw [show renderFields [(k, v)] ++ rbrace :: rest
            = '"' :: (k ++ '"' :: ':' :: (render v ++ rbrace :: rest)) by
          simp [renderFields]]
        have hpv : pVal fuel (render v ++ rbrace :: rest) = some (v, rbrace :: rest) :=
          pVal_render fuel v (rbrace :: rest) hW.2.1 hfv.1 rfl
        simp +decide [pFields, skipSpace, pStrBody_render k hW.1, hpv]
      | cons kv2 fs3 =>
        rw [show renderFields ((k, v) :: kv2 :: fs3) ++ rbrace :: rest
            = '"' :: (k ++ '"' :: ':' ::
                (render v ++ ',' :: (renderFields (kv2 :: fs3) ++ rbrace :: rest))) by
          simp [renderFields]]
        have hpv : pVal fuel (render v ++ ',' :: (renderFields (kv2 :: fs3) ++ rbrace :: rest))
            = some (v, ',' :: (renderFields (kv2 :: fs3) ++ rbrace :: rest)) :=
          pVal_render fuel v (',' :: (renderFields (kv2 :: fs3) ++ rbrace :: rest)) hW.2.1 hfv.1
            rfl
        have hfi := pFields_render fuel (kv2 :: fs3) rest (by simp) hW.2.2 hfv.2
        simp +decide [pFields, skipSpace, pStrBody_render k hW.1, hpv, hfi]

end

/-- A digit character is printable (code at least 32). -/
theorem digit_ge32 {c : Char} (h : isDigitCh c = true) : 32 ≤ c.toNat := by
  simp only [isDigitCh, Bool.and_eq_true, decide_eq_true_eq] at h
  omega

/-! Fuel bounds against rendered length, so the top-level fuel
`length + 1` always suffices. -/

mutual

theorem fuelVal_le_render : ∀ v : JVal, fuelVal v ≤ (render v).length
  | .jnull => by simp [fuelVal, render, nullTok]
  | .jbool b => by cases b <;> simp [fuelVal, render, trueTok, falseTok]
  | .jnum n => by
    obtain ⟨c, t, hct, -⟩ := intChars_head n
    simp [fuelVal, render, hct]
  | .jstr s => by simp [fuelVal, render]
  | .jarr vs => by
    have := fuelItems_le_renderItems vs
    simp only [fuelVal, render, List.length_cons, List.length_append]
    simp
    omega
  | .jobj fs => by
    have := fuelFields_le_renderFields fs
    simp only [fuelVal, render, List.length_cons, List.length_append]
    simp
    omega

theorem fuelItems_le_renderItems : ∀ vs : List JVal, fuelItems vs ≤ (renderItems vs).length + 1
  | [] => by simp [fuelItems]
  | [v] => by
    have := fuelVal_le_render v
    simp only [fuelItems, fuelItems, renderItems]
    omega
  | v :: w :: ws => by
    have h1 := fuelVal_le_render v
    have h2 := fuelItems_le_renderItems (w :: ws)
    simp only [fuelItems] at h2
    simp only [fuelItems, renderItems, List.length_append, List.length_cons]
    omega

theorem fuelFields_le_renderFields :
    ∀ fs : List (List Char × JVal), fuelFields fs ≤ (renderFields fs).length + 1
  | [] => by simp [fuelFields]
  | [kv] => by
    have := fuelVal_le_render kv.2
    simp only [fuelFields, renderFields, List.length_cons, List.length_append]
    omega
  | kv :: kv2 :: fs3 => by
    have h1 := fuelVal_le_render kv.2
    have h2 := fuelFields_le_renderFields (kv2 :: fs3)
    simp only [fuelFields] at h2
    simp only [fuelFields, renderFields, List.length_cons, List.length_append]
    omega

end

/-- A parsed string body consists of plain characters. -/
theorem pStrBody_sOk : ∀ (cs : List Char) (p : List Char × List Char),
    pStrBody cs = some p → sOk p.1 = true
  | [], p => by
    intro h
    simp [pStrBody] at h
  | c :: t, p => by
    intro h
    by_cases h1 : c = '"'
    · rw [show pStrBody (c :: t) = some ([], t) by simp [pStrBody, h1]] at h
      injection h with h'
      subst h'
      simp [sOk]
    · by_cases h2 : c = '\\' ∨ c.toNat < 32
      · rw [show pStrBody (c :: t) = none by
          rcases h2 with h2 | h2 <;> simp [pStrBody, h1, h2]] at h
        exact Option.noConfusion h
      · push_neg at h2
        obtain ⟨h2a, h2b⟩ := h2
        have hred : pStrBody (c :: t) =
            (match pStrBody t with
              | some r => some (c :: r.1, r.2)
              | none => none) := by
          simp [pStrBody, h1, h2a, h2b]
        rw [hred] at h
        rcases hrt : pStrBody t with _ | r
        · rw [hrt] at h
          exact Option.noConfusion h
        · rw [hrt] at h
          injection h with h'
          subst h'
          have hr := pStrBody_sOk t r hrt
          have h32 : 32 ≤ c.toNat := by omega
          simp only [sOk, List.all_cons, Bool.and_eq_true]
          constructor
          · simp [charOk, bne_iff_ne, h1, h2a]
            omega
          · exact hr

/-- A parsed numeral is a well-formed value. -/
theorem pNum_WF : ∀ (cs : List Char) (p : JVal × List Char),
    pNum cs = some p → WF p.1 = true
  | [], p => by
    intro h
    simp [pNum] at h
  | c :: t, p => by
    intro h
    rw [pNum_cons] at h
    by_cases hm : c = '-'
    · rw [if_pos hm] at h
      by_cases he : (grabDigits t).1.isEmpty = true
      · simp [he] at h
      · simp only [he, Bool.false_eq_true, if_false] at h
        injection h with h'
        subst h'
        simp [WF]
    · rw [if_neg hm] at h
      by_cases he : (grabDigits (c :: t)).1.isEmpty = true
      · simp [he] at h
      · simp only [he, Bool.false_eq_true, if_false] at h
        injection h with h'
        subst h'
        simp [WF]

/-! Everything the parser accepts is well-formed: values, item lists,
member lists. -/

mutual

theorem pVal_WF : ∀ (fuel : Nat) (cs : List Char) (p : JVal × List Char),
    pVal fuel cs = some p → WF p.1 = true
  | 0, cs, p => by
    intro h
    simp [pVal] at h
  | fuel + 1, cs, p => by
    intro h
    simp only [pVal] at h
    repeat' split at h
    all_goals first
      | contradiction
      | exact pNum_WF _ _ h
      | (injection h with h'
         subst h'
         first
           | (simp only [WF]
              exact pStrBody_sOk _ _ (by assumption))
           | (simp only [WF]
              exact pItems_WF fuel _ _ (by assumption))
           | (simp only [WF]
              exact pFields_WF fuel _ _ (by assumption))
           | simp [WF, WFitems, WFfields])

theorem pItems_WF : ∀ (fuel : Nat) (cs : List Char) (p : List JVal × List Char),
    pItems fuel cs = some p → WFitems p.1 = true
  | 0, cs, p => by
    intro h
    simp [pItems] at h
  | fuel + 1, cs, p => by
    intro h
    simp only [pItems] at h
    repeat' split at h
    all_goals first
      | contradiction
      | (injection h with h'
         subst h'
         simp only [WFitems, Bool.and_true, Bool.and_eq_true]
         first
           | exact ⟨pVal_WF fuel _ _ (by assumption), pItems_WF fuel _ _ (by assumption)⟩
           | exact pVal_WF fuel _ _ (by assumption))

theorem pFields_WF : ∀ (fuel : Nat) (cs : List Char) (p : List (List Char × JVal) × List Char),
    pFields fuel cs = some p → WFfields p.1 = true
  | 0, cs, p => by
    intro h
    simp [pFields] at h
  | fuel + 1, cs, p => by
    intro h
    simp only [pFields] at h
    repeat' split at h
    all_goals first
      | contradiction
      | (injection h with h'
         subst h'
         simp only [WFfields, Bool.and_true, Bool.and_eq_true]
         first
           | exact ⟨⟨pStrBody_sOk _ _ (by assumption), pVal_WF fuel _ _ (by assumption)⟩,
               pFields_WF fuel _ _ (by assumption)⟩
           | exact ⟨pStrBody_sOk _ _ (by assumption), pVal_WF fuel _ _ (by assumption)⟩)

end

/-- Anything `jsonParse` accepts is well-formed. -/
theorem jsonParse_WF (s : List Char) (v : JVal) (h : jsonParse s = some v) :
    WF v = true := by
  simp only [jsonParse] at h
  split at h
  · rename_i vr heq
    split at h
    · injection h with h'
      subst h'
      exact pVal_WF _ _ _ heq
    · exact Option.noConfusion h
  · exact Option.noConfusion h

/-- Anything `parseJSONResponse` accepts is well-formed. -/
theorem parseJSONResponse_ok_WF (r : List Char) (v : JVal)
    (h : parseJSONResponse r = .ok v) : WF v = true := by
  simp only [parseJSONResponse] at h
  split at h
  · rename_i w heq
    injection h with h'
    subst h'
    exact jsonParse_WF _ _ heq
  · exact Except.noConfusion h

/-! Rendered well-formed values contain only printable characters (code at
least 32): the syntax characters all are, and string contents are by
well-formedness. -/

mutual

theorem render_ge32 : ∀ v : JVal, WF v = true → ∀ c ∈ render v, 32 ≤ c.toNat
  | .jnull => by
    intro _ c hc
    simp [render, nullTok] at hc
    rcases hc with rfl | rfl | rfl | rfl <;> decide
  | .jbool b => by
    intro _ c hc
    cases b <;> simp [render, trueTok, falseTok] at hc
    · rcases hc with rfl | rfl | rfl | rfl | rfl <;> decide
    · rcases hc with rfl | rfl | rfl | rfl <;> decide
  | .jnum n => by
    intro _ c hc
    obtain ⟨-, hall⟩ := natChars_ne_nil_all_digits n.natAbs
    rw [show render (JVal.jnum n) = intChars n by simp [render], intChars] at hc
    by_cases hn : (n : Int) < 0
    · simp only [if_pos hn, List.mem_cons] at hc
      rcases hc with rfl | hc
      · decide
      · exact digit_ge32 (hall c hc)
    · simp only [if_neg hn] at hc
      exact digit_ge32 (hall c hc)
  | .jstr s => by
    intro hw c hc
    simp only [WF] at hw
    rw [show render (JVal.jstr s) = '"' :: (s ++ ['"']) by simp [render]] at hc
    simp only [List.mem_cons, List.mem_append, List.mem_singleton, List.mem_nil_iff,
      or_false] at hc
    rcases hc with rfl | hc | rfl
    · decide
    · have := (List.all_eq_true.mp hw) c hc
      exact (charOk_elim this).2.2
    · decide
  | .jarr vs => by
    intro hw c hc
    simp only [WF] at hw
    rw [show render (JVal.jarr vs) = '[' :: (renderItems vs ++ [']']) by simp [render]] at hc
    simp only [List.mem_cons, List.mem_append, List.mem_singleton, List.mem_nil_iff,
      or_false] at hc
    rcases hc with rfl | hc | rfl
    · decide
    · exact renderItems_ge32 vs hw c hc
    · decide
  | .jobj fs => by
    intro hw c hc
    simp only [WF] at hw
    rw [show render (JVal.jobj fs) = lbrace :: (renderFields fs ++ [rbrace]) by
      simp [render]] at hc
    simp only [List.mem_cons, List.mem_append, List.mem_singleton, List.mem_nil_iff,
      or_false] at hc
    rcases hc with rfl | hc | rfl
    · decide
    · exact renderFields_ge32 fs hw c hc
    · decide

theorem renderItems_ge32 :
    ∀ vs : List JVal, WFitems vs = true → ∀ c ∈ renderItems vs, 32 ≤ c.toNat
  | [] => by
    intro _ c hc
    simp [renderItems] at hc
  | [v] => by
    intro hw c hc
    have hwv : WF v = true := by simpa [WFitems] using hw
    rw [show renderItems [v] = render v by simp [renderItems]] at hc
    exact render_ge32 v hwv c hc
  | v :: w :: ws => by
    intro hw c hc
    have hwv : WF v = true ∧ WFitems (w :: ws) = true := by
      rw [WFitems] at hw
      simp only [Bool.and_eq_true] at hw
      exact hw
    rw [show renderItems (v :: w :: ws) = render v ++ ',' :: renderItems (w :: ws) by
      simp [renderItems]] at hc
    simp only [List.mem_append, List.mem_cons] at hc
    rcases hc with hc | rfl | hc
    · exact render_ge32 v hwv.1 c hc
    · decide
    · exact renderItems_ge32 (w :: ws) hwv.2 c hc

theorem renderFields_ge32 :
    ∀ fs : List (List Char × JVal), WFfields fs = true → ∀ c ∈ renderFields fs, 32 ≤ c.toNat
  | [] => by
    intro _ c hc
    simp [renderFields] at hc
  | [kv] => by
    intro hw c hc
    have hwv : sOk kv.1 = true ∧ WF kv.2 = true := by
      have := hw
      simp only [WFfields, Bool.and_eq_true] at this
      exact ⟨this.1.1, this.1.2⟩
    rw [show renderFields [kv] = '"' :: (kv.1 ++ '"' :: ':' :: render kv.2) by
      simp [renderFields]] at hc
    simp only [List.mem_cons, List.mem_append] at hc
    rcases hc with rfl | hc | rfl | rfl | hc
    · decide
    · exact (charOk_elim ((List.all_eq_true.mp hwv.1) c hc)).2.2
    · decide
    · decide
    · exact render_ge32 kv.2 hwv.2 c hc
  | kv :: kv2 :: fs3 => by
    intro hw c hc
    have hwv : sOk kv.1 = true ∧ WF kv.2 = true ∧ WFfields (kv2 :: fs3) = true := by
      rw [WFfields] at hw
      simp only [Bool.and_eq_true] at hw
      exact ⟨hw.1.1, hw.1.2, hw.2⟩
    rw [show renderFields (kv :: kv2 :: fs3)
        = '"' :: (kv.1 ++ '"' :: ':' :: (render kv.2 ++ ',' :: renderFields (kv2 :: fs3))) by
      simp [renderFields]] at hc
    simp only [List.mem_cons, List.mem_append] at hc
    rcases hc with rfl | hc | rfl | rfl | hc | rfl | hc
    · decide
    · exact (charOk_elim ((List.all_eq_true.mp hwv.1) c hc)).2.2
    · decide
    · decide
    · exact render_ge32 kv.2 hwv.2.1 c hc
    · decide
    · exact renderFields_ge32 (kv2 :: fs3) hwv.2.2 c hc

end

/-- The function `findSub` cannot find a pattern containing a control character inside a
printable string. -/
theorem findSub_none (pat : List Char) (x : Char) (hx : x ∈ pat) (hxc : x.toNat < 32) :
    ∀ s : List Char, (∀ c ∈ s, 32 ≤ c.toNat) → findSub pat s = none := by
  intro s
  induction s with
  | nil =>
    intro _
    cases hp : pat with
    | nil => subst hp; exact absurd hx (List.not_mem_nil x)
    | cons tc ts => simp [findSub, hp, stripTok]
  | cons c t ih =>
    intro hall
    have hst : stripTok pat (c :: t) = none := by
      rcases h : stripTok pat (c :: t) with _ | r
      · rfl
      · exfalso
        have := stripTok_some_pre pat (c :: t) r h
        have hmem : x ∈ c :: t := by
          rw [this]
          exact List.mem_append.mpr (Or.inl hx)
        have := hall x hmem
        omega
    simp only [findSub, hst, ih (fun d hd => hall d (List.mem_cons_of_mem c hd))]

/-- Neither fenced-block regex matches a rendered well-formed value: both
opening tokens contain a newline, which cannot occur in the rendering. -/
theorem extractFenced_render (v : JVal) (hw : WF v = true) :
    extractFenced (render v) = none := by
  have hall := render_ge32 v hw
  have h1 : findSub fenceJsonOpen (render v) = none :=
    findSub_none fenceJsonOpen '\n' (by decide) (by decide) (render v) hall
  have h2 : findSub fencePlainOpen (render v) = none :=
    findSub_none fencePlainOpen '\n' (by decide) (by decide) (render v) hall
  simp [extractFenced, matchFence, h1, h2]

/-- The model of `JSON.parse` inverts the model of `JSON.stringify` on
well-formed values. -/
theorem jsonParse_render (v : JVal) (hw : WF v = true) :
    jsonParse (render v) = some v := by
  have hfuel : fuelVal v ≤ (render v).length + 1 := by
    have := fuelVal_le_render v
    omega
  have h := pVal_render ((render v).length + 1) v [] hw hfuel rfl
  rw [List.append_nil] at h
  simp [jsonParse, h, skipSpace]

/-- C10: the round-trip law of the Generation Client's payload extraction —
whenever `parseJSONResponse` successfully parses a payload from a response
text, serializing that payload back to JSON (`render`, the model of
`JSON.stringify`) and running the same extraction on the serialized text
yields a structure equal to the original payload.  The serialized text
contains no newline, so neither fenced-block regex can match it, trimming
leaves it unchanged, and the parse inverts the serialization. -/
theorem parse_render_roundtrip (r : List Char) (v : JVal)
    (h : parseJSONResponse r = .ok v) :
    parseJSONResponse (render v) = .ok v := by
  have hw : WF v = true := parseJSONResponse_ok_WF r v h
  have hf : extractFenced (render v) = none := extractFenced_render v hw
  have ht : trimChars (render v) = render v := trim_render v
  have hp : jsonParse (render v) = some v := jsonParse_render v hw
  simp [parseJSONResponse, hf, ht, hp]

/-- Witness for C10 at a concrete parsed payload. -/
theorem parse_render_roundtrip_witness :
    parseJSONResponse (render (JVal.jobj [(['a'], JVal.jnum 1)]))
      = .ok (JVal.jobj [(['a'], JVal.jnum 1)]) :=
  parse_render_roundtrip "\x7b\"a\": 1\x7d".toList (JVal.jobj [(['a'], JVal.jnum 1)]) rfl

/-- When a non-null JSON value is read, the read does not throw. -/
theorem jsAccess_ok_of_ne_null (v : JVal) (k : List Char) (h : v ≠ .jnull) :
    jsAccess v k = .ok (fieldOf v k) := by
  cases v with
  | jnull => exact absurd rfl h
  | jbool b => rfl
  | jnum n => rfl
  | jstr s => rfl
  | jarr vs => rfl
  | jobj fs => rfl

/-- C1: if Planning's `execute` returns `success = false`, `orchestrate`
aborts the run — the result has `success = false`, the confidence field
holds the empty value 0 (the code's representation of an absent overall
confidence), the planning errors (with the `Planning failed` fallback when
the agent supplied none) are carried in `errors`, only the Planning agent
was invoked, and neither the Design nor the Content agent runs. -/
theorem planning_failure_aborts_run (pRes dRes cRes : AgentOutput)
    (h : pRes.success = false) :
    (orchestrate pRes dRes cRes).result.success = false ∧
    (orchestrate pRes dRes cRes).result.overallConfidence = 0 ∧
    (orchestrate pRes dRes cRes).result.errors = orErrors pRes.errors "Planning failed" ∧
    (orchestrate pRes dRes cRes).calls = [AgentName.planning] ∧
    AgentName.design ∉ (orchestrate pRes dRes cRes).calls ∧
    AgentName.content ∉ (orchestrate pRes dRes cRes).calls := by
  simp [orchestrate, h]

/-- Witness for C1 at a concrete failed planning outcome. -/
theorem planning_failure_aborts_run_witness :
    (orchestrate sampleFailPlanning sampleOkDesign sampleFailContent).result.success = false ∧
    (orchestrate sampleFailPlanning sampleOkDesign sampleFailContent).result.overallConfidence = 0 ∧
    (orchestrate sampleFailPlanning sampleOkDesign sampleFailContent).result.errors
      = orErrors sampleFailPlanning.errors "Planning failed" ∧
    (orchestrate sampleFailPlanning sampleOkDesign sampleFailContent).calls = [AgentName.planning] ∧
    AgentName.design ∉ (orchestrate sampleFailPlanning sampleOkDesign sampleFailContent).calls ∧
    AgentName.content ∉ (orchestrate sampleFailPlanning sampleOkDesign sampleFailContent).calls :=
  planning_failure_aborts_run sampleFailPlanning sampleOkDesign sampleFailContent rfl

/-- C2: when Planning succeeds (its payload being, as `PlanningAgent`
guarantees, a present non-null object), the returned `overallConfidence`
is the arithmetic mean of the confidences of exactly the agents that
succeeded: Planning's always, Design's and Content's if and only if that
agent returned `success = true`. -/
theorem overallConfidence_mean_of_succeeded (pRes dRes cRes : AgentOutput) (d : JVal)
    (hs : pRes.success = true) (hd : pRes.data = some d) (hn : d ≠ .jnull) :
    (orchestrate pRes dRes cRes).result.overallConfidence
      = (specSucceededConfidences pRes dRes cRes).sum
          / ((specSucceededConfidences pRes dRes cRes).length : ℚ) := by
  have hacc : jsAccessOpt pRes.data ['p', 'a', 'g', 'e', 's']
      = .ok (fieldOf d ['p', 'a', 'g', 'e', 's']) := by
    rw [hd]
    exact jsAccess_ok_of_ne_null d _ hn
  simp [orchestrate, hs, hacc, specSucceededConfidences]

/-- Witness for C2: Planning and Design succeed, Content fails, so the mean
runs over Planning's and Design's confidences only. -/
theorem overallConfidence_mean_of_succeeded_witness :
    (orchestrate sampleOkPlanning sampleOkDesign sampleFailContent).result.overallConfidence
      = (specSucceededConfidences sampleOkPlanning sampleOkDesign sampleFailContent).sum
          / ((specSucceededConfidences sampleOkPlanning sampleOkDesign sampleFailContent).length : ℚ) :=
  overallConfidence_mean_of_succeeded sampleOkPlanning sampleOkDesign sampleFailContent
    (.jobj [("pages".toList, .jarr [.jobj [("slug".toList, .jstr "home".toList)]])])
    rfl rfl (fun h => JVal.noConfusion h)

/-- C7: on exit code 0 `executeCommand` resolves with the trimmed stdout;
on a non-zero exit code it rejects with an `SSHError` that carries the
command and the captured stderr in its message, and never resolves. -/
theorem executeCommand_classification (env : SSHEnv) (cfg : SSHConfig) (cmd : String)
    (r : CmdResult) (hc : env.connectOk = true)
    (hr : env.run (fullCommand cfg cmd) = r) (hx : r.execErr = none) :
    (r.exitCode = 0 → executeCommand env cfg cmd = .ok (trimString r.stdout)) ∧
    (r.exitCode ≠ 0 →
      executeCommand env cfg cmd
        = .error (.sshError
            ("Command failed with code " ++ toString r.exitCode ++ ": " ++ r.stderr)
            (some cmd)) ∧
      ∀ s, executeCommand env cfg cmd ≠ .ok s) := by
  constructor
  · intro h0
    simp [executeCommand, hc, hr, hx, h0]
  · intro h0
    refine ⟨by simp [executeCommand, hc, hr, hx, h0], ?_⟩
    intro s hcontra
    rw [show executeCommand env cfg cmd
        = .error (.sshError
            ("Command failed with code " ++ toString r.exitCode ++ ": " ++ r.stderr)
            (some cmd)) by simp [executeCommand, hc, hr, hx, h0]] at hcontra
    exact Except.noConfusion hcontra

/-- Witness for C7: a successful command on `allOkEnv` resolves with
trimmed stdout, and a failing plugin install on `failWooEnv` rejects with
the classified `SSHError`. -/
theorem executeCommand_classification_witness :
    executeCommand allOkEnv demoSSHConfig "wp core version" = .ok "done" ∧
    executeCommand failWooEnv demoSSHConfig (wpPluginInstallCmd "woocommerce" true)
      = .error (.sshError "Command failed with code 1: Plugin not found"
          (some (wpPluginInstallCmd "woocommerce" true))) := by
  constructor
  · exact (executeCommand_classification allOkEnv demoSSHConfig "wp core version"
      ⟨none, 0, "  done  ", ""⟩ rfl rfl rfl).1 rfl
  · exact ((executeCommand_classification failWooEnv demoSSHConfig
      (wpPluginInstallCmd "woocommerce" true)
      ⟨none, 1, "", "Plugin not found"⟩ rfl rfl rfl).2 (by decide)).1

/-- C8 counterexample: against an unreachable host (the connection cannot
be established) the error raised by `executeCommand` is an `SSHError` — the
non-zero-exit/remote-command classification, carrying the attempted command
— and not a `WPNetworkError`, contrary to the claim. -/
theorem unreachable_host_error_counterexample :
    executeCommand unreachableEnv demoSSHConfig "wp core version"
      = .error (.sshError "connect ECONNREFUSED 203.0.113.10:22" (some "wp core version")) ∧
    errClass (.sshError "connect ECONNREFUSED 203.0.113.10:22" (some "wp core version"))
      = ErrClass.sshC ∧
    ErrClass.sshC ≠ ErrClass.networkC := by
  exact ⟨rfl, rfl, by decide⟩

/-- C8 as amended: when the connection cannot be established, the `catch`
block of `executeCommand` wraps the connection error in
`SSHError(error.message, command)` — the remote-command error class, not a
transport-level network class (no such class exists on the SSH path). -/
theorem connect_failure_raises_ssh_error (env : SSHEnv) (cfg : SSHConfig) (cmd : String)
    (h : env.connectOk = false) :
    executeCommand env cfg cmd = .error (.sshError env.connectErr (some cmd)) ∧
    errClass (.sshError env.connectErr (some cmd)) = ErrClass.sshC ∧
    ErrClass.sshC ≠ ErrClass.networkC := by
  refine ⟨?_, rfl, by decide⟩
  simp [executeCommand, h]

/-- Witness for the amended C8 at the unreachable-host fixture. -/
theorem connect_failure_raises_ssh_error_witness :
    executeCommand unreachableEnv demoSSHConfig "wp plugin list"
      = .error (.sshError unreachableEnv.connectErr (some "wp plugin list")) ∧
    errClass (.sshError unreachableEnv.connectErr (some "wp plugin list")) = ErrClass.sshC ∧
    ErrClass.sshC ≠ ErrClass.networkC :=
  connect_failure_raises_ssh_error unreachableEnv demoSSHConfig "wp plugin list" rfl

/-- C9: the Content API Client's response interceptor classifies failures
three ways — a received 401 response throws the authentication-specific
`WPAuthError`; any other received response throws `WPError` carrying the
HTTP status and the body's message; a transport failure (request sent, no
response received) throws `WPNetworkError` — and the three classes are
mutually exclusive (pairwise distinct error constructors). -/
theorem api_client_error_three_way (e : AxiosFailure) :
    (∀ r, e.response = some r → r.status = 401 →
      interceptError e = .inl (.wpAuthError "WordPress Authentication Failed")) ∧
    (∀ r, e.response = some r → r.status ≠ 401 →
      interceptError e
        = .inl (.wpError (r.dataMessage.getD "WordPress API Error") (some r.status) r.dataCode)) ∧
    (e.response = none → e.hasRequest = true →
      interceptError e = .inl (.wpNetworkError e.message)) ∧
    (∀ m1 m2 s c, WPIErr.wpAuthError m1 ≠ WPIErr.wpError m2 s c) ∧
    (∀ m1 m2, WPIErr.wpAuthError m1 ≠ WPIErr.wpNetworkError m2) ∧
    (∀ m1 m2 s c, WPIErr.wpError m2 s c ≠ WPIErr.wpNetworkError m1) := by
  refine ⟨?_, ?_, ?_, ?_, ?_, ?_⟩
  · intro r hr h401
    simp [interceptError, hr, h401]
  · intro r hr h401
    simp [interceptError, hr, h401]
  · intro hr hreq
    simp [interceptError, hr, hreq]
  · intro m1 m2 s c h
    exact WPIErr.noConfusion h
  · intro m1 m2 h
    exact WPIErr.noConfusion h
  · intro m1 m2 s c h
    exact WPIErr.noConfusion h

/-- Witness for C9 at three concrete axios failures: a 401, a 500 with a
body message, and a pure transport failure. -/
theorem api_client_error_three_way_witness :
    interceptError ⟨some ⟨401, some "Unauthorized", some "rest_forbidden"⟩, true, "Request failed"⟩
      = .inl (.wpAuthError "WordPress Authentication Failed") ∧
    interceptError ⟨some ⟨500, some "Server exploded", none⟩, true, "Request failed"⟩
      = .inl (.wpError "Server exploded" (some 500) none) ∧
    interceptError ⟨none, true, "socket hang up"⟩ = .inl (.wpNetworkError "socket hang up") := by
  refine ⟨?_, ?_, ?_⟩
  · exact (api_client_error_three_way
      ⟨some ⟨401, some "Unauthorized", some "rest_forbidden"⟩, true, "Request failed"⟩).1
      ⟨401, some "Unauthorized", some "rest_forbidden"⟩ rfl rfl
  · exact (api_client_error_three_way
      ⟨some ⟨500, some "Server exploded", none⟩, true, "Request failed"⟩).2.1
      ⟨500, some "Server exploded", none⟩ rfl (by decide)
  · exact (api_client_error_three_way ⟨none, true, "socket hang up"⟩).2.2.1 rfl rfl

/-- The plugin loop walks past a prefix of successful installs, recording
their commands. -/
theorem deployPlugins_ok_prefix (env : SSHEnv) (cfg : SSHConfig) (evs : List ProgEvent)
    (pre rest : List String)
    (hpre : ∀ q ∈ pre, ∃ s, wpPluginInstall env cfg q true = .ok s) :
    ∀ cmds, deployPlugins env cfg evs cmds (pre ++ rest)
      = deployPlugins env cfg evs (cmds ++ pre.map (fun q => wpPluginInstallCmd q true)) rest := by
  induction pre with
  | nil => intro cmds; simp
  | cons q qs ih =>
    intro cmds
    obtain ⟨s, hs⟩ := hpre q (List.mem_cons_self q qs)
    simp only [List.cons_append, deployPlugins, hs, List.append_eq]
    rw [ih (fun x hx => hpre x (List.mem_cons_of_mem q hx)) (cmds ++ [wpPluginInstallCmd q true])]
    simp

/-- Shared shape of a deployment run that reaches the plugin stage and has
one plugin's install fail: the run halts through the `catch` block. -/
theorem deploySite_plugin_failure (env : SSHEnv) (cfg : SSHConfig) (dd : DeploymentData)
    (pre post : List String) (p : String) (e : WPIErr)
    (hplugs : dd.plugins = pre ++ p :: post)
    (hcore : ∃ s, wpCoreInstall env cfg dd.url dd.title dd.adminUser dd.adminPass dd.adminEmail
      = .ok s)
    (htheme : ∀ t, dd.theme = some t → ∃ s, wpThemeInstall env cfg t true = .ok s)
    (hpre : ∀ q ∈ pre, ∃ s, wpPluginInstall env cfg q true = .ok s)
    (hp : wpPluginInstall env cfg p true = .error e) :
    deploySite env cfg dd =
      ⟨[initEvent, coreInstallEvent] ++ themeEvents dd.theme ++ [pluginsInstallEvent]
         ++ [⟨"failed", errMessage e⟩],
       [coreCmdOf dd] ++ themeCmds dd.theme
         ++ pre.map (fun q => wpPluginInstallCmd q true) ++ [wpPluginInstallCmd p true],
       some "FAILED", .error e⟩ := by
  obtain ⟨s0, h0⟩ := hcore
  have hne : dd.plugins.isEmpty = false := by
    rw [hplugs]
    cases pre <;> rfl
  have hloop : ∀ evs cmds,
      deployPlugins env cfg evs cmds dd.plugins
        = ⟨evs ++ [⟨"failed", errMessage e⟩],
           cmds ++ pre.map (fun q => wpPluginInstallCmd q true) ++ [wpPluginInstallCmd p true],
           some "FAILED", .error e⟩ := by
    intro evs cmds
    rw [hplugs, deployPlugins_ok_prefix env cfg evs pre (p :: post) hpre cmds]
    simp [deployPlugins, hp, failRun]
  cases hth : dd.theme with
  | none =>
    simp [deploySite, coreCmdOf, h0, hth, deployPluginsStage, hne, hloop,
      themeEvents, themeCmds, initEvent, coreInstallEvent, pluginsInstallEvent]
  | some t =>
    obtain ⟨s1, h1⟩ := htheme t hth
    simp [deploySite, coreCmdOf, h0, hth, h1, deployPluginsStage, hne, hloop,
      themeEvents, themeCmds, initEvent, coreInstallEvent, pluginsInstallEvent]

/-- C3: in a deployment whose earlier steps succeed, a (required) plugin
whose install command fails makes the run end with terminal status
`FAILED`; the failure is recorded through the `failed` progress event
carrying the classified error's message; and nothing after the
plugin-install step is attempted — the command log ends at the failing
plugin's install (the service has no content-push or finalize commands, and
neither the `DEPLOYED` status nor the `completed` event is ever reached).
In the code every plugin is treated as required. -/
theorem required_plugin_failure_halts_deployment (env : SSHEnv) (cfg : SSHConfig)
    (dd : DeploymentData) (pre post : List String) (p : String) (e : WPIErr)
    (hplugs : dd.plugins = pre ++ p :: post)
    (hcore : ∃ s, wpCoreInstall env cfg dd.url dd.title dd.adminUser dd.adminPass dd.adminEmail
      = .ok s)
    (htheme : ∀ t, dd.theme = some t → ∃ s, wpThemeInstall env cfg t true = .ok s)
    (hpre : ∀ q ∈ pre, ∃ s, wpPluginInstall env cfg q true = .ok s)
    (hp : wpPluginInstall env cfg p true = .error e) :
    (deploySite env cfg dd).dbStatus = some "FAILED" ∧
    (deploySite env cfg dd).result = .error e ∧
    (deploySite env cfg dd).events
      = [initEvent, coreInstallEvent] ++ themeEvents dd.theme ++ [pluginsInstallEvent]
          ++ [⟨"failed", errMessage e⟩] ∧
    (deploySite env cfg dd).cmds
      = [coreCmdOf dd] ++ themeCmds dd.theme
          ++ pre.map (fun q => wpPluginInstallCmd q true) ++ [wpPluginInstallCmd p true] := by
  rw [deploySite_plugin_failure env cfg dd pre post p e hplugs hcore htheme hpre hp]
  exact ⟨rfl, rfl, rfl, rfl⟩

/-- Witness for C3: the plan installs the required plugin `woocommerce`,
whose install exits 1 while core and theme succeed. -/
theorem required_plugin_failure_halts_deployment_witness :
    (deploySite failWooEnv demoSSHConfig requiredPluginData).dbStatus = some "FAILED" ∧
    (deploySite failWooEnv demoSSHConfig requiredPluginData).result
      = .error (.sshError "Command failed with code 1: Plugin not found"
          (some (wpPluginInstallCmd "woocommerce" true))) ∧
    (deploySite failWooEnv demoSSHConfig requiredPluginData).events
      = [initEvent, coreInstallEvent] ++ themeEvents requiredPluginData.theme
          ++ [pluginsInstallEvent]
          ++ [⟨"failed", errMessage (.sshError "Command failed with code 1: Plugin not found"
                (some (wpPluginInstallCmd "woocommerce" true)))⟩] ∧
    (deploySite failWooEnv demoSSHConfig requiredPluginData).cmds
      = [coreCmdOf requiredPluginData] ++ themeCmds requiredPluginData.theme
          ++ ([] : List String).map (fun q => wpPluginInstallCmd q true)
          ++ [wpPluginInstallCmd "woocommerce" true] := by
  refine required_plugin_failure_halts_deployment failWooEnv demoSSHConfig requiredPluginData
    [] [] "woocommerce"
    (.sshError "Command failed with code 1: Plugin not found"
      (some (wpPluginInstallCmd "woocommerce" true)))
    rfl ⟨"done", rfl⟩ ?_ ?_ rfl
  · intro t ht
    injection ht with h
    subst h
    exact ⟨"done", rfl⟩
  · intro q hq
    exact absurd hq (List.not_mem_nil q)

/-- C4 counterexample: a deployment plan whose only plugin is marked
optional (`required = false`), whose install fails while core and theme
succeed, ends with terminal status `FAILED` — not `DEPLOYED` as the claim
states — because `deploySite` aborts on any plugin failure. -/
theorem optional_plugin_failure_deploys_counterexample :
    optionalPluginCfg.required = false ∧
    wpCoreInstall failDollyEnv demoSSHConfig optionalPluginData.url optionalPluginData.title
      optionalPluginData.adminUser optionalPluginData.adminPass optionalPluginData.adminEmail
      = .ok "done" ∧
    wpThemeInstall failDollyEnv demoSSHConfig "astra" true = .ok "done" ∧
    wpPluginInstall failDollyEnv demoSSHConfig "hello-dolly" true
      = .error (.sshError "Command failed with code 1: Plugin not found"
          (some (wpPluginInstallCmd "hello-dolly" true))) ∧
    (deploySite failDollyEnv demoSSHConfig optionalPluginData).dbStatus = some "FAILED" ∧
    (deploySite failDollyEnv demoSSHConfig optionalPluginData).dbStatus ≠ some "DEPLOYED" := by
  exact ⟨rfl, rfl, rfl, rfl, rfl, by decide⟩

/-- C4 as amended: a failed plugin install always aborts the deployment
with terminal status `FAILED`, regardless of the plan's `required` flag for
that plugin (the service never reads `PluginConfig.required`): the failure
is recorded through the `failed` event and nothing after the plugin-install
step is attempted — there is no non-fatal warning path for optional
plugins. -/
theorem any_plugin_failure_halts_deployment (env : SSHEnv) (cfg : SSHConfig)
    (dd : DeploymentData) (cfgP : PluginConfig) (pre post : List String) (e : WPIErr)
    (_hopt : cfgP.required = false)
    (hplugs : dd.plugins = pre ++ cfgP.slug :: post)
    (hcore : ∃ s, wpCoreInstall env cfg dd.url dd.title dd.adminUser dd.adminPass dd.adminEmail
      = .ok s)
    (htheme : ∀ t, dd.theme = some t → ∃ s, wpThemeInstall env cfg t true = .ok s)
    (hpre : ∀ q ∈ pre, ∃ s, wpPluginInstall env cfg q true = .ok s)
    (hp : wpPluginInstall env cfg cfgP.slug true = .error e) :
    (deploySite env cfg dd).dbStatus = some "FAILED" ∧
    (deploySite env cfg dd).dbStatus ≠ some "DEPLOYED" ∧
    (deploySite env cfg dd).result = .error e ∧
    (deploySite env cfg dd).events
      = [initEvent, coreInstallEvent] ++ themeEvents dd.theme ++ [pluginsInstallEvent]
          ++ [⟨"failed", errMessage e⟩] ∧
    (deploySite env cfg dd).cmds
      = [coreCmdOf dd] ++ themeCmds dd.theme
          ++ pre.map (fun q => wpPluginInstallCmd q true) ++ [wpPluginInstallCmd cfgP.slug true] := by
  rw [deploySite_plugin_failure env cfg dd pre post cfgP.slug e hplugs hcore htheme hpre hp]
  exact ⟨rfl, by simp, rfl, rfl, rfl⟩

/-- Witness for the amended C4 at the optional-plugin fixture. -/
theorem any_plugin_failure_halts_deployment_witness :
    (deploySite failDollyEnv demoSSHConfig optionalPluginData).dbStatus = some "FAILED" ∧
    (deploySite failDollyEnv demoSSHConfig optionalPluginData).dbStatus ≠ some "DEPLOYED" ∧
    (deploySite failDollyEnv demoSSHConfig optionalPluginData).result
      = .error (.sshError "Command failed with code 1: Plugin not found"
          (some (wpPluginInstallCmd "hello-dolly" true))) ∧
    (deploySite failDollyEnv demoSSHConfig optionalPluginData).events
      = [initEvent, coreInstallEvent] ++ themeEvents optionalPluginData.theme
          ++ [pluginsInstallEvent]
          ++ [⟨"failed", errMessage (.sshError "Command failed with code 1: Plugin not found"
                (some (wpPluginInstallCmd "hello-dolly" true)))⟩] ∧
    (deploySite failDollyEnv demoSSHConfig optionalPluginData).cmds
      = [coreCmdOf optionalPluginData] ++ themeCmds optionalPluginData.theme
          ++ ([] : List String).map (fun q => wpPluginInstallCmd q true)
          ++ [wpPluginInstallCmd optionalPluginCfg.slug true] := by
  refine any_plugin_failure_halts_deployment failDollyEnv demoSSHConfig optionalPluginData
    optionalPluginCfg [] []
    (.sshError "Command failed with code 1: Plugin not found"
      (some (wpPluginInstallCmd "hello-dolly" true)))
    rfl rfl ⟨"done", rfl⟩ ?_ ?_ rfl
  · intro t ht
    injection ht with h
    subst h
    exact ⟨"done", rfl⟩
  · intro q hq
    exact absurd hq (List.not_mem_nil q)

/-- C5: `parseJSONResponse` first tries the fenced-block regexes; when they
capture a payload the captured (trimmed) text is what is parsed; when no
fence matches, the whole trimmed response is parsed; and whenever no
payload results the thrown fault is the malformed-response classification,
never the transport/network one — so at most one structured payload is
produced, on success exactly one. -/
theorem parseJSONResponse_extraction_order (r : List Char) :
    (∀ c, extractFenced r = some c →
      parseJSONResponse r = toPayload (jsonParse (trimChars c))) ∧
    (extractFenced r = none →
      parseJSONResponse r = toPayload (jsonParse (trimChars r))) ∧
    (∀ f, parseJSONResponse r = .error f →
      f = .malformed "Invalid JSON response from AI" ∧ ∀ m, f ≠ .network m) := by
  refine ⟨?_, ?_, ?_⟩
  · intro c hc
    simp only [parseJSONResponse, hc, toPayload]
  · intro hc
    simp only [parseJSONResponse, hc, toPayload]
  · intro f hf
    simp only [parseJSONResponse] at hf
    rcases hj : jsonParse (trimChars (match extractFenced r with | some c => c | none => r))
      with _ | v
    · rw [hj] at hf
      injection hf with h
      subst h
      exact ⟨rfl, fun m hm => AIFault.noConfusion hm⟩
    · rw [hj] at hf
      exact Except.noConfusion hf

/-- Witness for C5: a fenced response is parsed from its capture; an
unfenced response is parsed whole; and plain garbage produces the
malformed-response fault. -/
theorem parseJSONResponse_extraction_order_witness :
    parseJSONResponse "```json\n\x7b\"confidence\": 1\x7d\n```".toList
      = toPayload (jsonParse (trimChars "\x7b\"confidence\": 1\x7d".toList)) ∧
    parseJSONResponse " \x7b\"a\": 2\x7d ".toList
      = toPayload (jsonParse (trimChars " \x7b\"a\": 2\x7d ".toList)) ∧
    (AIFault.malformed "Invalid JSON response from AI"
        = .malformed "Invalid JSON response from AI" ∧
      ∀ m, AIFault.malformed "Invalid JSON response from AI" ≠ .network m) := by
  refine ⟨?_, ?_, ?_⟩
  · exact (parseJSONResponse_extraction_order
      "```json\n\x7b\"confidence\": 1\x7d\n```".toList).1
      "\x7b\"confidence\": 1\x7d".toList rfl
  · exact (parseJSONResponse_extraction_order " \x7b\"a\": 2\x7d ".toList).2.1 rfl
  · exact (parseJSONResponse_extraction_order "utterly broken".toList).2.2
      (.malformed "Invalid JSON response from AI") rfl

/-- C6: when the Generation Client hands back syntactically invalid text,
each of the three agents returns a failed `AgentOutput` — `success = false`,
`confidence = 0`, a non-empty `errors` array — and, in general, anything
the agent body throws is converted at the agent boundary into a failed
`AgentOutput`, so the Orchestrator never receives an uncaught fault. -/
theorem invalid_generation_fails_all_agents (input : AgentInput) (pages : Option JVal)
    (r : List Char) (f : AIFault) (h : parseJSONResponse r = .error f) :
    planningExecute input (.text r) = failedAgentOutput (faultMsg f) ∧
    (planningExecute input (.text r)).success = false ∧
    (planningExecute input (.text r)).confidence = 0 ∧
    (planningExecute input (.text r)).errors = some [faultMsg f] ∧
    designExecute input (.text r) = failedAgentOutput (faultMsg f) ∧
    (designExecute input (.text r)).success = false ∧
    (designExecute input (.text r)).confidence = 0 ∧
    (designExecute input (.text r)).errors = some [faultMsg f] ∧
    (contentExecute input pages (.text r)).success = false ∧
    (contentExecute input pages (.text r)).confidence = 0 ∧
    (∃ m, contentExecute input pages (.text r) = failedAgentOutput m ∧
      (contentExecute input pages (.text r)).errors = some [m]) ∧
    (∀ l, (planningExecute input (.text r)).errors = some l → l ≠ []) ∧
    (∀ g m, planningBody input g = .error m →
      planningExecute input g = failedAgentOutput m) ∧
    (∀ g m, designBody input g = .error m →
      designExecute input g = failedAgentOutput m) ∧
    (∀ g m, contentBody input pages g = .error m →
      contentExecute input pages g = failedAgentOutput m) := by
  have hpl : planningBody input (.text r) = .error (faultMsg f) := by
    simp [planningBody, generateCompletion, h]
  have hde : designBody input (.text r) = .error (faultMsg f) := by
    simp [designBody, generateCompletion, h]
  have hco : ∃ m, contentBody input pages (.text r) = .error m := by
    rcases hpp : promptPages pages with m0 | u
    · exact ⟨m0, by simp [contentBody, hpp]⟩
    · exact ⟨faultMsg f, by simp [contentBody, hpp, generateCompletion, h]⟩
  obtain ⟨m, hm⟩ := hco
  refine ⟨?_, ?_, ?_, ?_, ?_, ?_, ?_, ?_, ?_, ?_, ?_, ?_, ?_, ?_, ?_⟩
  · simp [planningExecute, hpl]
  · simp [planningExecute, hpl, failedAgentOutput]
  · simp [planningExecute, hpl, failedAgentOutput]
  · simp [planningExecute, hpl, failedAgentOutput]
  · simp [designExecute, hde]
  · simp [designExecute, hde, failedAgentOutput]
  · simp [designExecute, hde, failedAgentOutput]
  · simp [designExecute, hde, failedAgentOutput]
  · simp [contentExecute, hm, failedAgentOutput]
  · simp [contentExecute, hm, failedAgentOutput]
  · exact ⟨m, by simp [contentExecute, hm], by simp [contentExecute, hm, failedAgentOutput]⟩
  · intro l hl
    simp [planningExecute, hpl, failedAgentOutput] at hl
    simp [← hl]
  · intro g m0 hm0
    simp [planningExecute, hm0]
  · intro g m0 hm0
    simp [designExecute, hm0]
  · intro g m0 hm0
    simp [contentExecute, hm0]

/-- Witness for C6 at a concrete invalid generation result. -/
theorem invalid_generation_fails_all_agents_witness :
    planningExecute sampleInput (.text "utterly broken".toList)
      = failedAgentOutput (faultMsg (.malformed "Invalid JSON response from AI")) ∧
    (planningExecute sampleInput (.text "utterly broken".toList)).success = false ∧
    (planningExecute sampleInput (.text "utterly broken".toList)).confidence = 0 ∧
    (planningExecute sampleInput (.text "utterly broken".toList)).errors
      = some [faultMsg (.malformed "Invalid JSON response from AI")] ∧
    designExecute sampleInput (.text "utterly broken".toList)
      = failedAgentOutput (faultMsg (.malformed "Invalid JSON response from AI")) ∧
    (designExecute sampleInput (.text "utterly broken".toList)).success = false ∧
    (designExecute sampleInput (.text "utterly broken".toList)).confidence = 0 ∧
    (designExecute sampleInput (.text "utterly broken".toList)).errors
      = some [faultMsg (.malformed "Invalid JSON response from AI")] ∧
    (contentExecute sampleInput (some (.jarr [])) (.text "utterly broken".toList)).success
      = false ∧
    (contentExecute sampleInput (some (.jarr [])) (.text "utterly broken".toList)).confidence
      = 0 ∧
    (∃ m, contentExecute sampleInput (some (.jarr [])) (.text "utterly broken".toList)
        = failedAgentOutput m ∧
      (contentExecute sampleInput (some (.jarr [])) (.text "utterly broken".toList)).errors
        = some [m]) ∧
    (∀ l, (planningExecute sampleInput (.text "utterly broken".toList)).errors = some l →
      l ≠ []) ∧
    (∀ g m, planningBody sampleInput g = .error m →
      planningExecute sampleInput g = failedAgentOutput m) ∧
    (∀ g m, designBody sampleInput g = .error m →
      designExecute sampleInput g = failedAgentOutput m) ∧
    (∀ g m, contentBody sampleInput (some (.jarr [])) g = .error m →
      contentExecute sampleInput (some (.jarr [])) g = failedAgentOutput m) :=
  invalid_generation_fails_all_agents sampleInput (some (.jarr []))
    "utterly broken".toList (.malformed "Invalid JSON response from AI") rfl

end UxUi
